import Mathlib

/-!
Verification of the Finding-to-Issue Synchronizer (`src/scripts/sarif-to-issues.ts`,
`src/scripts/scoring.ts`) against its natural-language specification.

The TypeScript source is shallowly embedded: pure functions become Lean
functions, the stateful per-finding reconciliation loop becomes explicit
state passing over a `LoopState`, JS strings become Lean `String`
(character lists), JS `Map` becomes an association list, and the regular
expressions used by the source are compiled by hand into deterministic
character-list scanners (each scanner's doc comment records the regex it
embeds).
-/

/- ===================== Scoring (src/scripts/scoring.ts) ===================== -/

/-- Severity enum of the source (`critical > high > medium > low`). -/
inductive Severity
  | low
  | medium
  | high
  | critical
deriving Repr, DecidableEq

/-- Severity threshold: `Severity | "info"` in the source; `info` admits all. -/
inductive SeverityThreshold
  | info
  | low
  | medium
  | high
  | critical
deriving Repr, DecidableEq

/-- Confidence enum of the source (`high > medium > low`). -/
inductive Confidence
  | low
  | medium
  | high
deriving Repr, DecidableEq

/-- `SEVERITY_ORDER` restricted to severities (scoring.ts lines 27-33). -/
def SEVERITY_ORDER : Severity → Nat
  | .low => 1
  | .medium => 2
  | .high => 3
  | .critical => 4

/-- `SEVERITY_ORDER` on threshold values (`info` is level 0). -/
def SEVERITY_ORDER_T : SeverityThreshold → Nat
  | .info => 0
  | .low => 1
  | .medium => 2
  | .high => 3
  | .critical => 4

/-- `CONFIDENCE_ORDER` (scoring.ts lines 63-67). -/
def CONFIDENCE_ORDER : Confidence → Nat
  | .low => 1
  | .medium => 2
  | .high => 3

/-- `meetsSeverityThreshold` (scoring.ts lines 49-54). -/
def meetsSeverityThreshold (severity : Severity) (threshold : SeverityThreshold) : Bool :=
  SEVERITY_ORDER severity ≥ SEVERITY_ORDER_T threshold

/-- `meetsConfidenceThreshold` (scoring.ts lines 79-84). -/
def meetsConfidenceThreshold (confidence : Confidence) (threshold : Confidence) : Bool :=
  CONFIDENCE_ORDER confidence ≥ CONFIDENCE_ORDER threshold

/-- `meetsThresholds` (scoring.ts lines 824-834). -/
def meetsThresholds (severity : Severity) (confidence : Confidence)
    (severityThreshold : SeverityThreshold) (confidenceThreshold : Confidence) : Bool :=
  meetsSeverityThreshold severity severityThreshold &&
  meetsConfidenceThreshold confidence confidenceThreshold

/- ===================== Data model (src/scripts/types.ts shapes) ===================== -/

/-- A finding location `(path, startLine, endLine?)`. -/
structure Location where
  path : String
  startLine : Nat
  endLine : Option Nat
deriving Repr, DecidableEq

/-- The fields of a `Finding` consumed by the reconciler and renderer. -/
structure Finding where
  tool : String
  ruleId : String
  title : String
  severity : Severity
  confidence : Confidence
  fingerprint : String
  locations : List Location
deriving Repr, DecidableEq

/-- Metadata parsed from the hidden markers of an issue body
(`fingerprint`, `lastSeenRun`; both optional in the TS type). -/
structure IssueMetadata where
  fingerprint : Option String
  lastSeenRun : Option Nat
deriving Repr, DecidableEq

/-- `ExistingIssue`: tracker view. `state` is the literal TS string
union `"open" | "closed"`, kept as a `String` to mirror the source's
string comparisons. -/
structure ExistingIssue where
  number : Nat
  state : String
  title : String
  metadata : Option IssueMetadata
deriving Repr, DecidableEq

/-- The `issuesConfig` record after the source merges defaults with
`context.config.issues` (sarif-to-issues.ts lines 454-462). -/
structure IssuesConfig where
  enabled : Bool
  label : String
  max_new_per_run : Nat
  severity_threshold : SeverityThreshold
  confidence_threshold : Confidence
  close_resolved : Bool
  assignees : List String
deriving Repr, DecidableEq

/-- The default `issuesConfig` of the source (sarif-to-issues.ts lines
454-462): the values used when `context.config.issues` overrides nothing. -/
def defaultIssuesConfig : IssuesConfig :=
  { enabled := true
    label := "vibeCop"
    max_new_per_run := 25
    severity_threshold := .info
    confidence_threshold := .low
    close_resolved := false
    assignees := [] }

/-- `IssueStats` (sarif-to-issues.ts lines 422-429). -/
structure IssueStats where
  created : Nat
  updated : Nat
  closed : Nat
  skippedBelowThreshold : Nat
  skippedDuplicate : Nat
  skippedMaxReached : Nat
deriving Repr, DecidableEq

/-- The all-zero stats record the source initialises (lines 438-445). -/
def initialStats : IssueStats :=
  { created := 0, updated := 0, closed := 0
    skippedBelowThreshold := 0, skippedDuplicate := 0, skippedMaxReached := 0 }

/- ===================== Character-level string helpers ===================== -/

/-- JS regex `\s` on the ASCII range (space, tab, LF, VT, FF, CR). -/
def isJsWs (c : Char) : Bool :=
  c = ' ' || c = '\t' || c = '\n' || c = '\x0b' || c = '\x0c' || c = '\r'

/-- JS regex `\w` (ASCII word character `[A-Za-z0-9_]`). -/
def isWordChar (c : Char) : Bool :=
  c.isAlphanum || c = '_'

/-- Fuelled recursion for `dedupKeepFirst` (each step consumes at least one
element, so fuel equal to the input length suffices). -/
def dedupKeepFirstFuel : Nat → List String → List String
  | 0, _ => []
  | _ + 1, [] => []
  | fuel + 1, x :: xs => x :: dedupKeepFirstFuel fuel (xs.filter (fun y => y ≠ x))

/-- JS `[...new Set(xs)]`: deduplicate keeping the first occurrence of each value. -/
def dedupKeepFirst (l : List String) : List String :=
  dedupKeepFirstFuel l.length l

/-- JS `path.split("/").pop()`: the final field after the last `/`
(the whole string when no `/` occurs, empty when the string ends in `/`). -/
def basenameOf (path : String) : String :=
  String.mk ((path.data.reverse.takeWhile (fun c => c ≠ '/')).reverse)

/-- JS `text.lastIndexOf(" ", fromIdx)`: the largest index `i ≤ fromIdx`
with `text[i] = ' '`, or `-1` when no such index exists. -/
def lastSpaceLE (cs : List Char) (fromIdx : Nat) : Int :=
  match (cs.take (fromIdx + 1)).reverse.findIdx? (fun c => c = ' ') with
  | some j => ((cs.take (fromIdx + 1)).length - 1 - j : Int)
  | none => -1

/-- `truncateAtWordBoundary` (sarif-to-issues.ts lines 353-369). -/
def truncateAtWordBoundary (text : String) (maxLen : Nat) : String :=
  if text.length ≤ maxLen then text
  else
    let truncateAt : Int := (maxLen : Int) - 3
    let lastSpace : Int := lastSpaceLE text.data truncateAt.toNat
    if lastSpace > truncateAt - 20 && lastSpace > 0 then
      String.mk (text.data.take lastSpace.toNat) ++ "..."
    else
      String.mk (text.data.take truncateAt.toNat) ++ "..."

/-- `generateIssueTitle` (sarif-to-issues.ts lines 371-391): hardcoded
`"[vibeCop] "` prefix, a location hint from the unique basenames of the
finding's locations, truncated to 100 characters. -/
def generateIssueTitle (finding : Finding) : String :=
  let maxLen := 100
  let locationHint :=
    if finding.locations.length > 0 then
      let uniqueFiles :=
        dedupKeepFirst (finding.locations.map (fun l => basenameOf l.path))
      if uniqueFiles.length = 1 then
        " in " ++ uniqueFiles.headD ""
      else if uniqueFiles.length ≤ 3 then
        " in " ++ uniqueFiles.headD "" ++ " +" ++ toString (uniqueFiles.length - 1) ++ " more"
      else ""
    else ""
  truncateAtWordBoundary ("[vibeCop] " ++ finding.title ++ locationHint) maxLen

/- ===================== Title normalization (sarif-to-issues.ts 763-771) ===================== -/

/-- Scanner for the first (case-insensitive, non-global) replacement
`/\[vibecop\]\s*/i` of `normalizeIssueTitle`: removes the first occurrence
of `"[vibecop]"` together with the whitespace run following it. The input
is already lowercased, so a case-sensitive prefix test suffices. -/
def removeVibecop : List Char → List Char
  | [] => []
  | c :: cs =>
    if List.isPrefixOf "[vibecop]".data (c :: cs) then
      ((c :: cs).drop 9).dropWhile isJsWs
    else c :: removeVibecop cs

/-- One attempt of the pattern `\s*\(\d+\s*occurrences?\)` at the head of
the input; on success returns the remainder after the match. -/
def matchOcc (cs : List Char) : Option (List Char) :=
  match cs.dropWhile isJsWs with
  | '(' :: cs2 =>
    let ds := cs2.takeWhile (fun c => c.isDigit)
    if ds.isEmpty then none
    else
      let cs3 := (cs2.drop ds.length).dropWhile isJsWs
      if List.isPrefixOf "occurrence".data cs3 then
        match cs3.drop 10 with
        | 's' :: ')' :: rest => some rest
        | ')' :: rest => some rest
        | _ => none
      else none
  | _ => none

/-- Fuelled driver of the global replacement `/\s*\(\d+\s*occurrences?\)/gi`:
at each position try `matchOcc`; on success drop the match and continue after
it, otherwise keep one character and advance. A successful match always
consumes at least one character, so fuel equal to the input length suffices. -/
def removeOccFuel : Nat → List Char → List Char
  | 0, cs => cs
  | _ + 1, [] => []
  | fuel + 1, c :: cs =>
    match matchOcc (c :: cs) with
    | some rest => removeOccFuel fuel rest
    | none => c :: removeOccFuel fuel cs

/-- Global removal of ` (N occurrences)` groups. -/
def removeOccAll (cs : List Char) : List Char :=
  removeOccFuel cs.length cs

/-- Scanner for the anchored replacement `/\s+in\s+\S+$/`: when the string
ends with whitespace, the literal `in`, whitespace, and a non-whitespace
word, remove that tail (from the start of the whitespace run preceding
`in`); otherwise leave the string unchanged. -/
def removeTrailingInFile (cs : List Char) : List Char :=
  let r := cs.reverse
  let nw := r.takeWhile (fun c => !isJsWs c)
  let r1 := r.drop nw.length
  let ws := r1.takeWhile isJsWs
  let r2 := r1.drop ws.length
  if nw.isEmpty || ws.isEmpty then cs
  else
    match r2 with
    | 'n' :: 'i' :: r3 =>
      let ws2 := r3.takeWhile isJsWs
      if ws2.isEmpty then cs else (r3.drop ws2.length).reverse
    | _ => cs

/-- Fuelled recursion for `collapseWs` (each step consumes at least one
character, so fuel equal to the input length suffices). -/
def collapseWsFuel : Nat → List Char → List Char
  | 0, cs => cs
  | _ + 1, [] => []
  | fuel + 1, c :: cs =>
    if isJsWs c then ' ' :: collapseWsFuel fuel (cs.dropWhile isJsWs)
    else c :: collapseWsFuel fuel cs

/-- Global replacement `/\s+/g → " "`: collapse every whitespace run to a
single space. -/
def collapseWs (cs : List Char) : List Char :=
  collapseWsFuel cs.length cs

/-- JS `String.prototype.trim` on the ASCII whitespace set. -/
def trimWs (cs : List Char) : List Char :=
  ((cs.dropWhile isJsWs).reverse.dropWhile isJsWs).reverse

/-- `normalizeIssueTitle` (sarif-to-issues.ts lines 763-771): lowercase,
strip the `[vibecop]` prefix, drop ` (N occurrences)` groups, drop a
trailing ` in <file>`, collapse whitespace, trim. -/
def normalizeIssueTitle (title : String) : String :=
  String.mk (trimWs (collapseWs (removeTrailingInFile (removeOccAll
    (removeVibecop (title.data.map Char.toLower))))))

/- ===================== Reconciler loop (sarif-to-issues.ts 434-653) ===================== -/

/-- Tracker operations the per-finding loop can emit (there is no reopen
operation anywhere in the source). -/
inductive TrackerOp
  | createOp (fingerprint : String)
  | updateOp (number : Nat)
deriving Repr, DecidableEq

/-- State threaded through the per-finding loop: the fingerprint map, the
`seenFingerprints` set, the running stats and the emitted operations. -/
structure LoopState where
  fpMap : List (String × ExistingIssue)
  seen : List String
  stats : IssueStats
  ops : List TrackerOp
deriving Repr, DecidableEq

/-- JS `Map.get`, on the association-list model. -/
def mapGet (m : List (String × ExistingIssue)) (k : String) : Option ExistingIssue :=
  (m.find? (fun p => p.1 = k)).map (fun p => p.2)

/-- JS `Map.set`, on the association-list model. -/
def mapSet (m : List (String × ExistingIssue)) (k : String) (v : ExistingIssue) :
    List (String × ExistingIssue) :=
  if m.any (fun p => p.1 = k) then m.map (fun p => if p.1 = k then (k, v) else p)
  else m ++ [(k, v)]

/-- ASCII lowercase of a string (JS `toLowerCase` on the ASCII range). -/
def strToLower (s : String) : String :=
  String.mk (s.data.map Char.toLower)

/-- Scanner for the anchored regex `/^(\w+)[\s:(]/` applied to a finding's
title (sarif-to-issues.ts line 560): the maximal leading word run, accepted
when non-empty and followed by whitespace, `:` or `(`. -/
def sublinterTokenOfTitle (title : String) : Option String :=
  let w := title.data.takeWhile isWordChar
  if w.isEmpty then none
  else
    match title.data.drop w.length with
    | c :: _ =>
      if isJsWs c || c = ':' || c = '(' then some (String.mk (w.map Char.toLower)) else none
    | [] => none

/-- Seen-set effect of a fallback match (sarif-to-issues.ts lines 573-576):
`if (existingIssue.metadata?.fingerprint) seenFingerprints.add(...)` — the
matched issue's prior fingerprint is added when present and truthy. -/
def fallbackSeen (issue : ExistingIssue) (seen : List String) : List String :=
  match issue.metadata with
  | some md =>
    match md.fingerprint with
    | some pf => if pf ≠ "" then seen ++ [pf] else seen
    | none => seen
  | none => seen

/-- The two fallback lookups of the loop (sarif-to-issues.ts lines 552-565):
tool+rule key, then — for trunk findings — the sublinter key extracted from
the finding title. -/
def fallbackLookup (toolRuleMap sublinterMap : List (String × ExistingIssue))
    (finding : Finding) : Option ExistingIssue :=
  let toolRuleKey := strToLower finding.tool ++ "|" ++ strToLower finding.ruleId
  match mapGet toolRuleMap toolRuleKey with
  | some issue => some issue
  | none =>
    if strToLower finding.tool = "trunk" then
      match sublinterTokenOfTitle finding.title with
      | some tok => mapGet sublinterMap ("trunk|" ++ tok)
      | none => none
    else none

/-- One iteration of the per-finding loop (sarif-to-issues.ts lines
546-625): record the fingerprint as seen; look the finding up by
fingerprint, then by fallback (recording a fallback hit in the fingerprint
map and marking the matched issue's prior fingerprint as seen); update an
open match, ignore a closed match, create when unmatched and under the cap,
otherwise count the finding against `skippedMaxReached`. -/
def processOneFinding (toolRuleMap sublinterMap : List (String × ExistingIssue))
    (cfg : IssuesConfig) (st : LoopState) (finding : Finding) : LoopState :=
  let st1 := { st with seen := st.seen ++ [finding.fingerprint] }
  match mapGet st1.fpMap finding.fingerprint with
  | some issue =>
    if issue.state = "open" then
      { st1 with stats := { st1.stats with updated := st1.stats.updated + 1 },
                 ops := st1.ops ++ [.updateOp issue.number] }
    else st1
  | none =>
    match fallbackLookup toolRuleMap sublinterMap finding with
    | some issue =>
      let st2 := { st1 with fpMap := mapSet st1.fpMap finding.fingerprint issue }
      let st3 := { st2 with seen := fallbackSeen issue st2.seen }
      if issue.state = "open" then
        { st3 with stats := { st3.stats with updated := st3.stats.updated + 1 },
                   ops := st3.ops ++ [.updateOp issue.number] }
      else st3
    | none =>
      if st1.stats.created ≥ cfg.max_new_per_run then
        { st1 with stats := { st1.stats with skippedMaxReached := st1.stats.skippedMaxReached + 1 } }
      else
        { st1 with stats := { st1.stats with created := st1.stats.created + 1 },
                   ops := st1.ops ++ [.createOp finding.fingerprint] }

/-- The per-finding loop over the actionable findings. -/
def processFindingsLoop (toolRuleMap sublinterMap : List (String × ExistingIssue))
    (cfg : IssuesConfig) (st : LoopState) (findings : List Finding) : LoopState :=
  findings.foldl (processOneFinding toolRuleMap sublinterMap cfg) st

/- ===================== Flap-protected closure (sarif-to-issues.ts 832-880) ===================== -/

/-- Modelled from the spec: the constant `FLAP_PROTECTION_RUNS` lives in
`scripts/fingerprints.ts`, which is not under `src/`. Spec §4.5 gives the
constant as 3 and scenario S6 fixes `FLAP_PROTECTION_RUNS = 3`. -/
def FLAP_PROTECTION_RUNS : Int := 3

/-- The action `closeResolvedIssues` takes for one existing issue. -/
inductive ResolvedAction
  | close (number : Nat) (misses : Int)
  | comment (number : Nat) (remaining : Int)
  | skip
deriving Repr, DecidableEq

/-- One iteration of `closeResolvedIssues` (sarif-to-issues.ts lines
840-879): skip non-open issues, issues without a (truthy) metadata
fingerprint, and issues whose fingerprint was seen this run; otherwise
close when `currentRun - (lastSeenRun || 0) ≥ FLAP_PROTECTION_RUNS`, else
comment with the remaining grace count. -/
def closeResolvedStep (seen : List String) (currentRun : Nat) (issue : ExistingIssue) :
    ResolvedAction :=
  if issue.state ≠ "open" then .skip
  else
    match issue.metadata with
    | none => .skip
    | some md =>
      match md.fingerprint with
      | none => .skip
      | some fp =>
        if fp = "" then .skip
        else if fp ∈ seen then .skip
        else
          let lastSeenRun : Int := (md.lastSeenRun.getD 0 : Nat)
          let consecutiveMisses : Int := (currentRun : Int) - lastSeenRun
          if consecutiveMisses ≥ FLAP_PROTECTION_RUNS then
            .close issue.number consecutiveMisses
          else
            .comment issue.number (FLAP_PROTECTION_RUNS - consecutiveMisses)

/-- Stats effect of `closeResolvedIssues`: one `closed` increment per close. -/
def closeResolvedIssuesStats (existingIssues : List ExistingIssue) (seen : List String)
    (currentRun : Nat) (stats : IssueStats) : IssueStats :=
  existingIssues.foldl
    (fun s issue =>
      match closeResolvedStep seen currentRun issue with
      | .close _ _ => { s with closed := s.closed + 1 }
      | _ => s)
    stats

/- ===================== Supersession (sarif-to-issues.ts 660-756) ===================== -/

/-- Case-insensitive prefix test on character lists (ASCII). -/
def ciPrefixOf : List Char → List Char → Bool
  | [], _ => true
  | _ :: _, [] => false
  | p :: ps, c :: cs => (p.toLower = c.toLower) && ciPrefixOf ps cs

/-- Scanner for the unanchored regex `/\[vibeCop\]\s+(\w+)[\s:(\-]/i` of
`extractSublinterFromTitle` (sarif-to-issues.ts lines 660-664): at each
position, a case-insensitive `[vibecop]`, a non-empty whitespace run, a
non-empty word run, then one of whitespace, `:`, `(`, `-`; the captured
word run of the first position where this succeeds. -/
def extractSublinterScan : List Char → Option (List Char)
  | [] => none
  | c :: cs =>
    if ciPrefixOf "[vibecop]".data (c :: cs) then
      let rest := (c :: cs).drop 9
      let ws := rest.takeWhile isJsWs
      let rest1 := rest.drop ws.length
      let w := rest1.takeWhile isWordChar
      let ok := !ws.isEmpty && !w.isEmpty &&
        (match rest1.drop w.length with
         | c2 :: _ => isJsWs c2 || c2 = ':' || c2 = '(' || c2 = '-'
         | [] => false)
      if ok then some w else extractSublinterScan cs
    else extractSublinterScan cs

/-- `extractSublinterFromTitle` (sarif-to-issues.ts lines 660-664). -/
def extractSublinterFromTitle (title : String) : Option String :=
  (extractSublinterScan title.data).map (fun w => String.mk (w.map Char.toLower))

/-- Scanner for the unanchored, case-sensitive regex
`/\[vibeCop\]\s+\w+:\s+\S+/` (the "single-rule issue" test of
`isSupersededByMergedFinding`, sarif-to-issues.ts line 692). -/
def singleRuleScan : List Char → Bool
  | [] => false
  | c :: cs =>
    (List.isPrefixOf "[vibeCop]".data (c :: cs) &&
      (let rest := (c :: cs).drop 9
       let ws := rest.takeWhile isJsWs
       let rest1 := rest.drop ws.length
       let w := rest1.takeWhile isWordChar
       !ws.isEmpty && !w.isEmpty &&
       (match rest1.drop w.length with
        | ':' :: rest2 =>
          let ws2 := rest2.takeWhile isJsWs
          !ws2.isEmpty &&
          (match rest2.drop ws2.length with
           | c3 :: _ => !isJsWs c3
           | [] => false)
        | _ => false))) ||
    singleRuleScan cs

/-- Contiguous-substring test on character lists. -/
def listHasInfix (pat : List Char) : List Char → Bool
  | [] => pat.isEmpty
  | c :: cs => List.isPrefixOf pat (c :: cs) || listHasInfix pat cs

/-- JS `String.prototype.includes`. -/
def strIncludes (s pat : String) : Bool :=
  listHasInfix pat.data s.data

/-- The "merged finding" test of `isSupersededByMergedFinding`
(sarif-to-issues.ts lines 706-709). -/
def isMergedFinding (f : Finding) : Bool :=
  strIncludes f.ruleId "+" || strIncludes f.title "issues across" ||
  strIncludes f.title "occurrences)"

/-- `isSupersededByMergedFinding` (sarif-to-issues.ts lines 673-717). -/
def isSupersededByMergedFinding (issue : ExistingIssue) (findings : List Finding)
    (seen : List String) : Bool :=
  let fpSeen :=
    match issue.metadata with
    | some md =>
      match md.fingerprint with
      | some fp => fp != "" && seen.contains fp
      | none => false
    | none => false
  if fpSeen then false
  else
    match extractSublinterFromTitle issue.title with
    | none => false
    | some issueSublinter =>
      if !singleRuleScan issue.title.data then false
      else
        findings.any (fun f =>
          f.tool == "trunk" &&
          extractSublinterFromTitle f.title == some issueSublinter &&
          isMergedFinding f)

/-- Stats effect of `closeSupersededIssues` (sarif-to-issues.ts lines
722-756): one `closed` increment per superseded open issue. -/
def closeSupersededIssuesStats (existingIssues : List ExistingIssue) (findings : List Finding)
    (seen : List String) (stats : IssueStats) : IssueStats :=
  existingIssues.foldl
    (fun s issue =>
      if issue.state == "open" && isSupersededByMergedFinding issue findings seen then
        { s with closed := s.closed + 1 }
      else s)
    stats

/- ===================== Duplicate collapse (sarif-to-issues.ts 776-827) ===================== -/

/-- JS `Map` grouping step: append to the entry with the given key, or add
a new entry at the end (insertion order preserved). -/
def insertGroup (groups : List (String × List ExistingIssue)) (key : String)
    (issue : ExistingIssue) : List (String × List ExistingIssue) :=
  match groups with
  | [] => [(key, [issue])]
  | (k, g) :: rest =>
    if k = key then (k, g ++ [issue]) :: rest
    else (k, g) :: insertGroup rest key issue

/-- The `issuesByTitle` map of `closeDuplicateIssues` (sarif-to-issues.ts
lines 783-795): open issues grouped by normalized title. -/
def issuesByTitle (existingIssues : List ExistingIssue) :
    List (String × List ExistingIssue) :=
  existingIssues.foldl
    (fun groups issue =>
      if issue.state = "open" then insertGroup groups (normalizeIssueTitle issue.title) issue
      else groups)
    []

/-- Insertion step of the descending sort by issue number
(JS `issues.sort((a, b) => b.number - a.number)`). -/
def insertByNumberDesc (x : ExistingIssue) : List ExistingIssue → List ExistingIssue
  | [] => [x]
  | y :: ys => if x.number ≤ y.number then y :: insertByNumberDesc x ys else x :: y :: ys

/-- Sort a group of issues by number, descending. -/
def sortByNumberDesc (l : List ExistingIssue) : List ExistingIssue :=
  l.foldr insertByNumberDesc []

/-- The issue numbers `closeDuplicateIssues` closes (sarif-to-issues.ts
lines 798-826): for each normalized-title group of two or more open issues,
every member except the highest-numbered one. -/
def closedDuplicates (existingIssues : List ExistingIssue) : List Nat :=
  (issuesByTitle existingIssues).foldl
    (fun acc g =>
      if g.2.length ≤ 1 then acc
      else acc ++ ((sortByNumberDesc g.2).drop 1).map (fun i => i.number))
    []

/-- Stats effect of `closeDuplicateIssues`: one `closed` increment per
closed duplicate. -/
def closeDuplicateIssuesStats (existingIssues : List ExistingIssue)
    (stats : IssueStats) : IssueStats :=
  (closedDuplicates existingIssues).foldl (fun s _ => { s with closed := s.closed + 1 }) stats

/- ===================== Dedup and the full pipeline ===================== -/

/-- Key by which locations are deduplicated when findings merge. -/
def locKey (l : Location) : String × Nat :=
  (l.path, l.startLine)

/-- Concatenate locations, dropping those whose `(path, startLine)` key is
already present. -/
def mergeLocations (base extra : List Location) : List Location :=
  extra.foldl (fun acc l => if acc.any (fun m => locKey m = locKey l) then acc else acc ++ [l]) base

/-- Fold step of `deduplicateFindings`: merge into the existing entry with
the same fingerprint, or append as a new entry. -/
def dedupInsert (acc : List Finding) (f : Finding) : List Finding :=
  if acc.any (fun g => g.fingerprint = f.fingerprint) then
    acc.map (fun g =>
      if g.fingerprint = f.fingerprint then
        { g with locations := mergeLocations g.locations f.locations }
      else g)
  else acc ++ [f]

/-- Modelled from the spec: `deduplicateFindings` lives in
`scripts/fingerprints.ts`, which is not under `src/`. Spec §4.3: group by
fingerprint preserving first-occurrence order; each group collapses to its
first member, whose `locations` become the concatenation of all members'
locations deduplicated by `(path, startLine)`. -/
def deduplicateFindings (findings : List Finding) : List Finding :=
  findings.foldl dedupInsert []

/-- The decision core of `processFindings` (sarif-to-issues.ts lines
434-653) as a pure function. The three lookup tables are parameters (the
source builds them from the existing issues before the loop); the tracker
calls are represented by their stats and operation effects. -/
def processFindingsPure (findings : List Finding) (existingIssues : List ExistingIssue)
    (fpMap toolRuleMap sublinterMap : List (String × ExistingIssue))
    (cfg : IssuesConfig) (runNumber : Nat) : IssueStats :=
  if !cfg.enabled then initialStats
  else
    let uniqueFindings := deduplicateFindings findings
    let actionableFindings := uniqueFindings.filter (fun f =>
      meetsThresholds f.severity f.confidence cfg.severity_threshold cfg.confidence_threshold)
    let stats1 := { initialStats with
      skippedBelowThreshold := uniqueFindings.length - actionableFindings.length }
    let finalState := processFindingsLoop toolRuleMap sublinterMap cfg
      { fpMap := fpMap, seen := [], stats := stats1, ops := [] } actionableFindings
    if cfg.close_resolved then
      let s2 := closeResolvedIssuesStats existingIssues finalState.seen runNumber finalState.stats
      let s3 := closeSupersededIssuesStats existingIssues actionableFindings finalState.seen s2
      closeDuplicateIssuesStats existingIssues s3
    else finalState.stats

/- ===================== Derived notions used by the statements ===================== -/

/-- The match an actionable finding resolves to against the initial lookup
tables: primary fingerprint lookup, then fallback. -/
def staticLookup (fpMap toolRuleMap sublinterMap : List (String × ExistingIssue))
    (finding : Finding) : Option ExistingIssue :=
  match mapGet fpMap finding.fingerprint with
  | some issue => some issue
  | none => fallbackLookup toolRuleMap sublinterMap finding

/-- Does the finding resolve to an open existing issue (an update)? -/
def isOpenMatch (fpMap toolRuleMap sublinterMap : List (String × ExistingIssue))
    (finding : Finding) : Bool :=
  match staticLookup fpMap toolRuleMap sublinterMap finding with
  | some issue => issue.state == "open"
  | none => false

/-- Does the finding resolve to no existing issue (a creation candidate)? -/
def isUnmatched (fpMap toolRuleMap sublinterMap : List (String × ExistingIssue))
    (finding : Finding) : Bool :=
  (staticLookup fpMap toolRuleMap sublinterMap finding).isNone

/-- The member list stored under a key of the grouping map (empty when the
key is absent). -/
def findGroup (groups : List (String × List ExistingIssue)) (key : String) :
    List ExistingIssue :=
  ((groups.find? (fun p => p.1 = key)).map (fun p => p.2)).getD []

/-- Keys of a grouping map. -/
def keysOf (groups : List (String × List ExistingIssue)) : List String :=
  groups.map (fun p => p.1)

/-- Open issue whose normalized title is the given key. -/
def openWithKey (key : String) (issue : ExistingIssue) : Bool :=
  issue.state == "open" && normalizeIssueTitle issue.title == key

/- ===================== Concrete inputs for witnesses ===================== -/

/-- Scenario-S1 finding of the spec: one `eslint`/`no-unused-vars` finding
at `src/a.ts:42`. -/
def s1Finding : Finding :=
  { tool := "eslint", ruleId := "no-unused-vars", title := "Unused variable",
    severity := .medium, confidence := .high, fingerprint := "sha256:abc",
    locations := [{ path := "src/a.ts", startLine := 42, endLine := none }] }

/-- A distinct-fingerprint finding family for the max-cap scenario S5. -/
def mkCapFinding (i : Nat) : Finding :=
  { tool := "eslint", ruleId := "rule", title := "t", severity := .low, confidence := .low,
    fingerprint := "fp" ++ toString i,
    locations := [{ path := "src/a.ts", startLine := i, endLine := none }] }

/-- Forty distinct findings (scenario S5). -/
def capFindings : List Finding :=
  (List.range 40).map mkCapFinding

/-- Configuration for scenario S5: `max_new_per_run = 25`, thresholds
admitting everything. -/
def capConfig : IssuesConfig :=
  { enabled := true, label := "vibeCop", max_new_per_run := 25,
    severity_threshold := .info, confidence_threshold := .low,
    close_resolved := false, assignees := [] }

/-- Scenario-S6 issue: open, fingerprint marker present, `lastSeenRun = 10`. -/
def s6Issue : ExistingIssue :=
  { number := 7, state := "open", title := "[vibeCop] Unused variable in a.ts",
    metadata := some { fingerprint := some "sha256:old", lastSeenRun := some 10 } }

/-- An open issue carrying a fingerprint marker but no `lastSeenRun` marker. -/
def noRunIssue : ExistingIssue :=
  { number := 9, state := "open", title := "[vibeCop] Something",
    metadata := some { fingerprint := some "sha256:norun", lastSeenRun := none } }

/-- A closed issue whose metadata fingerprint matches `s1Finding`. -/
def closedIssue : ExistingIssue :=
  { number := 3, state := "closed", title := "[vibeCop] Unused variable in a.ts",
    metadata := some { fingerprint := some "sha256:abc", lastSeenRun := some 4 } }

/-- An open issue reachable only through the tool+rule fallback index. -/
def fallbackIssue : ExistingIssue :=
  { number := 5, state := "open", title := "[vibeCop] eslint: no-unused-vars",
    metadata := some { fingerprint := some "sha256:prior", lastSeenRun := some 11 } }

/-- A loop state with an empty fingerprint map and fresh stats. -/
def emptyLoopState : LoopState :=
  { fpMap := [], seen := [], stats := initialStats, ops := [] }

/-- Open issue number 1, normalized title `"dup code"`. -/
def dupIssue1 : ExistingIssue :=
  { number := 1, state := "open", title := "[vibeCop] Dup Code (3 occurrences)", metadata := none }

/-- Open issue number 2, normalized title `"dup code"`. -/
def dupIssue2 : ExistingIssue :=
  { number := 2, state := "open", title := "[vibeCop] dup code", metadata := none }

/-- Issue set with two open issues sharing the normalized title
`"dup code"`, one closed issue with the same title, and one unrelated
open issue. -/
def dupIssues : List ExistingIssue :=
  [ dupIssue1, dupIssue2,
    { number := 3, state := "closed", title := "[vibeCop] dup code", metadata := none },
    { number := 4, state := "open", title := "[vibeCop] other", metadata := none } ]

/-- The actionable stream of a run: the deduplicated findings passing the
configured thresholds. -/
def actionableOf (findings : List Finding) (cfg : IssuesConfig) : List Finding :=
  (deduplicateFindings findings).filter (fun f =>
    meetsThresholds f.severity f.confidence cfg.severity_threshold cfg.confidence_threshold)

/- ===================== Theorems ===================== -/

/-- C1: the claim (following spec and README) expects default-configuration
issue titles to begin with `"[vibeCheck] "`; the source's default label is
`"vibeCop"` and `generateIssueTitle` hardcodes the prefix `"[vibeCop] "`,
so the scenario-S1 finding yields a `"[vibeCop] "` title and never a
`"[vibeCheck] "` one. -/
theorem C1_title_prefix_is_vibeCop_not_vibeCheck :
    generateIssueTitle s1Finding = "[vibeCop] Unused variable in a.ts" ∧
    List.isPrefixOf "[vibeCheck] ".data (generateIssueTitle s1Finding).data = false ∧
    List.isPrefixOf "[vibeCop] ".data (generateIssueTitle s1Finding).data = true ∧
    defaultIssuesConfig.label = "vibeCop" := by
  refine ⟨by decide, by decide, by decide, rfl⟩

/-- C3: flap protection in `closeResolvedIssues`. For an open issue whose
(non-empty) metadata fingerprint was not seen this run, the issue is closed
exactly when `currentRun - lastSeenRun ≥ FLAP_PROTECTION_RUNS`; below the
bound the pass instead comments with the remaining grace count; in
particular at `FLAP_PROTECTION_RUNS - 1` consecutive misses it is not
closed and at `FLAP_PROTECTION_RUNS` it is. -/
theorem C3_flap_protection (seen : List String) (currentRun : Nat) (issue : ExistingIssue)
    (md : IssueMetadata) (fp : String)
    (hopen : issue.state = "open") (hmd : issue.metadata = some md)
    (hfp : md.fingerprint = some fp) (hne : fp ≠ "") (hseen : fp ∉ seen) :
    ((closeResolvedStep seen currentRun issue =
        .close issue.number ((currentRun : Int) - (md.lastSeenRun.getD 0 : Nat))) ↔
      (currentRun : Int) - (md.lastSeenRun.getD 0 : Nat) ≥ FLAP_PROTECTION_RUNS) ∧
    ((currentRun : Int) - (md.lastSeenRun.getD 0 : Nat) < FLAP_PROTECTION_RUNS →
      closeResolvedStep seen currentRun issue =
        .comment issue.number
          (FLAP_PROTECTION_RUNS - ((currentRun : Int) - (md.lastSeenRun.getD 0 : Nat)))) ∧
    ((currentRun : Int) - (md.lastSeenRun.getD 0 : Nat) = FLAP_PROTECTION_RUNS - 1 →
      ∀ n m, closeResolvedStep seen currentRun issue ≠ .close n m) ∧
    ((currentRun : Int) - (md.lastSeenRun.getD 0 : Nat) = FLAP_PROTECTION_RUNS →
      closeResolvedStep seen currentRun issue = .close issue.number FLAP_PROTECTION_RUNS) := by
  have hstep : closeResolvedStep seen currentRun issue =
      if (currentRun : Int) - (md.lastSeenRun.getD 0 : Nat) ≥ FLAP_PROTECTION_RUNS then
        .close issue.number ((currentRun : Int) - (md.lastSeenRun.getD 0 : Nat))
      else
        .comment issue.number
          (FLAP_PROTECTION_RUNS - ((currentRun : Int) - (md.lastSeenRun.getD 0 : Nat))) := by
    simp only [closeResolvedStep, hopen, hmd, hfp, ne_eq, not_true_eq_false, if_false,
      if_neg hne, if_neg hseen]
  by_cases hge : (currentRun : Int) - (md.lastSeenRun.getD 0 : Nat) ≥ FLAP_PROTECTION_RUNS
  · rw [hstep, if_pos hge]
    refine ⟨by simp [hge], fun hlt => absurd hge (not_le.mpr hlt), fun heq => ?_, fun heq => ?_⟩
    · exfalso
      rw [heq] at hge
      omega
    · rw [heq]
  · rw [hstep, if_neg hge]
    refine ⟨by simp [hge], fun _ => rfl, fun _ n m => by simp, fun heq => absurd (le_of_eq heq.symm) hge⟩

/-- Witness for C3: scenario S6 (`lastSeenRun = 10`, `runNumber = 13`,
fingerprint absent) closes the issue with 3 consecutive misses; at
`runNumber = 12` it only comments. -/
theorem C3_flap_protection_witness :
    closeResolvedStep [] 13 s6Issue = .close 7 3 ∧
    closeResolvedStep [] 12 s6Issue = .comment 7 1 := by
  have h13 := C3_flap_protection [] 13 s6Issue
    { fingerprint := some "sha256:old", lastSeenRun := some 10 } "sha256:old"
    rfl rfl rfl (by decide) (by simp)
  have h12 := C3_flap_protection [] 12 s6Issue
    { fingerprint := some "sha256:old", lastSeenRun := some 10 } "sha256:old"
    rfl rfl rfl (by decide) (by simp)
  constructor
  · exact h13.1.mpr (by norm_num [FLAP_PROTECTION_RUNS])
  · have := h12.2.1 (by norm_num [FLAP_PROTECTION_RUNS])
    simpa using this

/-- C10: an open, unseen issue whose metadata carries a fingerprint but no
`lastSeenRun` has `lastSeenRun || 0` evaluate to 0, so its consecutive-miss
count equals the current run number and it is closed exactly when the
current run number is at least `FLAP_PROTECTION_RUNS`. -/
theorem C10_missing_lastSeenRun_closes_immediately (seen : List String) (currentRun : Nat)
    (issue : ExistingIssue) (md : IssueMetadata) (fp : String)
    (hopen : issue.state = "open") (hmd : issue.metadata = some md)
    (hfp : md.fingerprint = some fp) (hne : fp ≠ "") (hseen : fp ∉ seen)
    (hlast : md.lastSeenRun = none) :
    (closeResolvedStep seen currentRun issue = .close issue.number (currentRun : Int) ↔
      (currentRun : Int) ≥ FLAP_PROTECTION_RUNS) := by
  have hstep : closeResolvedStep seen currentRun issue =
      if (currentRun : Int) ≥ FLAP_PROTECTION_RUNS then
        .close issue.number (currentRun : Int)
      else .comment issue.number (FLAP_PROTECTION_RUNS - (currentRun : Int)) := by
    simp only [closeResolvedStep, hopen, hmd, hfp, hlast, ne_eq, not_true_eq_false, if_false,
      if_neg hne, if_neg hseen, Option.getD_none]
    norm_num
  by_cases hge : (currentRun : Int) ≥ FLAP_PROTECTION_RUNS
  · rw [hstep, if_pos hge]
    simp [hge]
  · rw [hstep, if_neg hge]
    simp [hge]

/-- Auxiliary: setting a key makes it retrievable. -/
theorem mapGet_mapSet_self (m : List (String × ExistingIssue)) (k : String) (v : ExistingIssue) :
    mapGet (mapSet m k v) k = some v := by
  induction m with
  | nil => simp [mapSet, mapGet]
  | cons p rest ih =>
    by_cases hp : p.1 = k
    · simp [mapSet, mapGet, List.any_cons, hp]
    · have hstep : mapSet (p :: rest) k v = p :: mapSet rest k v := by
        by_cases hr : rest.any (fun q => q.1 = k) <;>
          simp [mapSet, List.any_cons, hp, hr]
      rw [hstep]
      simpa [mapGet, List.find?_cons, hp] using ih


/-- Auxiliary: the key-replacing map of `mapSet` does not affect lookups of
other keys. -/
theorem mapGet_map_setfun (rest : List (String × ExistingIssue)) (k k' : String)
    (v : ExistingIssue) (hne : k' ≠ k) :
    mapGet (rest.map (fun q => if q.1 = k then (k, v) else q)) k' = mapGet rest k' := by
  induction rest with
  | nil => rfl
  | cons q rest2 ih =>
    by_cases hq : q.1 = k
    · have hq' : ¬ q.1 = k' := by rw [hq]; exact Ne.symm hne
      simp only [List.map_cons, if_pos hq]
      simp only [mapGet, List.find?_cons]
      have h1 : (decide ((k, v).1 = k')) = false := by simp [Ne.symm hne]
      have h2 : (decide (q.1 = k')) = false := by simp [hq']
      rw [h1, h2]
      exact ih
    · simp only [List.map_cons, if_neg hq]
      simp only [mapGet, List.find?_cons]
      by_cases hq' : q.1 = k'
      · simp [hq']
      · have h2 : (decide (q.1 = k')) = false := by simp [hq']
        rw [h2]
        exact ih

/-- Auxiliary: setting a key leaves other keys unchanged. -/
theorem mapGet_mapSet_ne (m : List (String × ExistingIssue)) (k k' : String) (v : ExistingIssue)
    (hne : k' ≠ k) : mapGet (mapSet m k v) k' = mapGet m k' := by
  induction m with
  | nil => simp [mapSet, mapGet, Ne.symm hne]
  | cons p rest ih =>
    by_cases hp : p.1 = k
    · have hany : (p :: rest).any (fun q => q.1 = k) = true := by simp [List.any_cons, hp]
      have hp' : ¬ p.1 = k' := by rw [hp]; exact Ne.symm hne
      simp only [mapSet, hany, if_true, List.map_cons, if_pos hp]
      have hhead : (decide ((k, v).1 = k')) = false := by simp [Ne.symm hne]
      have hhead2 : (decide (p.1 = k')) = false := by simp [hp']
      simp only [mapGet, List.find?_cons, hhead, hhead2]
      exact mapGet_map_setfun rest k k' v hne
    · have hstep : mapSet (p :: rest) k v = p :: mapSet rest k v := by
        by_cases hr : rest.any (fun q => q.1 = k) <;>
          simp [mapSet, List.any_cons, hp, hr]
      rw [hstep]
      by_cases hq' : p.1 = k'
      · simp [mapGet, List.find?_cons, hq']
      · have h2 : (decide (p.1 = k')) = false := by simp [hq']
        simp only [mapGet, List.find?_cons, h2]
        exact ih

/-- Auxiliary: the fallback seen-update only appends. -/
theorem subset_fallbackSeen (issue : ExistingIssue) (seen : List String) :
    seen ⊆ fallbackSeen issue seen := by
  cases hmd : issue.metadata with
  | none => simp [fallbackSeen, hmd]
  | some md =>
    cases hfp : md.fingerprint with
    | none => simp [fallbackSeen, hmd, hfp]
    | some pf =>
      by_cases hp : pf = "" <;>
        simp [fallbackSeen, hmd, hfp, hp, List.subset_append_left]

/-- Auxiliary: one loop iteration only ever appends to `seenFingerprints`. -/
theorem seen_subset_processOneFinding (toolRuleMap sublinterMap : List (String × ExistingIssue))
    (cfg : IssuesConfig) (st : LoopState) (finding : Finding) :
    st.seen ⊆ (processOneFinding toolRuleMap sublinterMap cfg st finding).seen := by
  unfold processOneFinding
  have hbase : st.seen ⊆ st.seen ++ [finding.fingerprint] := List.subset_append_left _ _
  cases hm : mapGet st.fpMap finding.fingerprint with
  | some issue =>
    simp only [hm]
    by_cases ho : issue.state = "open" <;> simp only [ho, if_true, if_false] <;> exact hbase
  | none =>
    simp only [hm]
    cases hf : fallbackLookup toolRuleMap sublinterMap finding with
    | some issue =>
      simp only [hf]
      have h2 : st.seen ⊆ fallbackSeen issue (st.seen ++ [finding.fingerprint]) :=
        fun a ha => subset_fallbackSeen issue _ (hbase ha)
      by_cases ho : issue.state = "open" <;> simp only [ho, if_true, if_false] <;> exact h2
    | none =>
      simp only [hf]
      by_cases hc : st.stats.created ≥ cfg.max_new_per_run <;>
        simp only [hc, if_true, if_false] <;> exact hbase

/-- Auxiliary: the whole loop only ever appends to `seenFingerprints`. -/
theorem seen_subset_processFindingsLoop (toolRuleMap sublinterMap : List (String × ExistingIssue))
    (cfg : IssuesConfig) (findings : List Finding) (st : LoopState) :
    st.seen ⊆ (processFindingsLoop toolRuleMap sublinterMap cfg st findings).seen := by
  induction findings generalizing st with
  | nil => exact fun a h => h
  | cons f fs ih =>
    intro a ha
    exact ih (processOneFinding toolRuleMap sublinterMap cfg st f)
      (seen_subset_processOneFinding toolRuleMap sublinterMap cfg st f ha)

/-- C4: a finding whose fingerprint (or fallback key) resolves to a closed
existing issue produces neither a create nor an update — the stats counters
stay unchanged and no tracker operation is emitted (the loop has no reopen
operation at all). -/
theorem C4_closed_match_neither_creates_nor_updates
    (toolRuleMap sublinterMap : List (String × ExistingIssue)) (cfg : IssuesConfig)
    (st : LoopState) (finding : Finding) (issue : ExistingIssue)
    (hmatch : mapGet st.fpMap finding.fingerprint = some issue ∨
      (mapGet st.fpMap finding.fingerprint = none ∧
        fallbackLookup toolRuleMap sublinterMap finding = some issue))
    (hclosed : issue.state = "closed") :
    (processOneFinding toolRuleMap sublinterMap cfg st finding).stats.created =
      st.stats.created ∧
    (processOneFinding toolRuleMap sublinterMap cfg st finding).stats.updated =
      st.stats.updated ∧
    (processOneFinding toolRuleMap sublinterMap cfg st finding).ops = st.ops := by
  have hno : ¬ issue.state = "open" := by rw [hclosed]; decide
  unfold processOneFinding
  rcases hmatch with h | ⟨h1, h2⟩
  · simp only [h]
    simp [hno]
  · simp only [h1, h2]
    simp [hno]

/-- Witness for C4: `s1Finding` against a fingerprint map holding only the
closed `closedIssue` under `s1Finding`'s fingerprint. -/
theorem C4_witness :
    (processOneFinding [] [] capConfig
        { emptyLoopState with fpMap := [("sha256:abc", closedIssue)] } s1Finding).stats.created =
      ({ emptyLoopState with fpMap := [("sha256:abc", closedIssue)] } : LoopState).stats.created ∧
    (processOneFinding [] [] capConfig
        { emptyLoopState with fpMap := [("sha256:abc", closedIssue)] } s1Finding).stats.updated =
      ({ emptyLoopState with fpMap := [("sha256:abc", closedIssue)] } : LoopState).stats.updated ∧
    (processOneFinding [] [] capConfig
        { emptyLoopState with fpMap := [("sha256:abc", closedIssue)] } s1Finding).ops =
      ({ emptyLoopState with fpMap := [("sha256:abc", closedIssue)] } : LoopState).ops :=
  C4_closed_match_neither_creates_nor_updates [] [] capConfig
    { emptyLoopState with fpMap := [("sha256:abc", closedIssue)] } s1Finding closedIssue
    (Or.inl (by decide)) (by decide)

/-- C8: on a fallback-only match the loop records the matched issue under
the finding's fingerprint, adds the issue's prior metadata fingerprint to
`seenFingerprints`, and consequently the flap-protection pass of the same
run never closes (indeed, never acts on) that issue — for any later
seen-set extension, in particular after the rest of the loop. -/
theorem C8_fallback_match_protects_issue
    (toolRuleMap sublinterMap : List (String × ExistingIssue)) (cfg : IssuesConfig)
    (st : LoopState) (finding : Finding) (issue : ExistingIssue)
    (hmiss : mapGet st.fpMap finding.fingerprint = none)
    (hfb : fallbackLookup toolRuleMap sublinterMap finding = some issue) :
    mapGet (processOneFinding toolRuleMap sublinterMap cfg st finding).fpMap
        finding.fingerprint = some issue ∧
    (∀ pf, issue.metadata.bind IssueMetadata.fingerprint = some pf → pf ≠ "" →
      pf ∈ (processOneFinding toolRuleMap sublinterMap cfg st finding).seen) ∧
    (∀ seen2 currentRun,
      (processOneFinding toolRuleMap sublinterMap cfg st finding).seen ⊆ seen2 →
      closeResolvedStep seen2 currentRun issue = .skip) ∧
    (∀ laterFindings currentRun,
      closeResolvedStep
        (processFindingsLoop toolRuleMap sublinterMap cfg
          (processOneFinding toolRuleMap sublinterMap cfg st finding) laterFindings).seen
        currentRun issue = .skip) := by
  have hmapEq : (processOneFinding toolRuleMap sublinterMap cfg st finding).fpMap =
      mapSet st.fpMap finding.fingerprint issue := by
    unfold processOneFinding
    simp only [hmiss, hfb]
    by_cases ho : issue.state = "open" <;> simp [ho]
  have hseenEq : (processOneFinding toolRuleMap sublinterMap cfg st finding).seen =
      fallbackSeen issue (st.seen ++ [finding.fingerprint]) := by
    unfold processOneFinding
    simp only [hmiss, hfb]
    by_cases ho : issue.state = "open" <;> simp [ho]
  have hmem : ∀ pf, issue.metadata.bind IssueMetadata.fingerprint = some pf → pf ≠ "" →
      pf ∈ (processOneFinding toolRuleMap sublinterMap cfg st finding).seen := by
    intro pf hpf hpn
    rw [hseenEq]
    cases hmd : issue.metadata with
    | none => rw [hmd] at hpf; simp at hpf
    | some md =>
      rw [hmd] at hpf
      simp only [Option.some_bind] at hpf
      simp [fallbackSeen, hmd, hpf, hpn]
  have hskip : ∀ seen2 currentRun,
      (processOneFinding toolRuleMap sublinterMap cfg st finding).seen ⊆ seen2 →
      closeResolvedStep seen2 currentRun issue = .skip := by
    intro seen2 currentRun hsub
    unfold closeResolvedStep
    by_cases ho : issue.state ≠ "open"
    · simp [ho]
    · simp only [ho, if_false]
      cases hmd : issue.metadata with
      | none => simp
      | some md =>
        cases hfp : md.fingerprint with
        | none => simp [hfp]
        | some pf =>
          by_cases hpe : pf = ""
          · simp [hfp, hpe]
          · have hin : pf ∈ seen2 := by
              apply hsub
              apply hmem pf _ hpe
              rw [hmd]
              simp [hfp]
            simp [hfp, hpe, hin]
  refine ⟨by rw [hmapEq]; exact mapGet_mapSet_self _ _ _, hmem, hskip, ?_⟩
  intro laterFindings currentRun
  exact hskip _ currentRun
    (seen_subset_processFindingsLoop toolRuleMap sublinterMap cfg laterFindings _)

/-- Witness for C8: `s1Finding` with an empty fingerprint map but a
tool+rule fallback entry for `eslint|no-unused-vars` pointing at
`fallbackIssue`; the flap-protection step then skips `fallbackIssue`. -/
theorem C8_witness :
    mapGet (processOneFinding [("eslint|no-unused-vars", fallbackIssue)] [] capConfig
        emptyLoopState s1Finding).fpMap s1Finding.fingerprint = some fallbackIssue ∧
    closeResolvedStep (processOneFinding [("eslint|no-unused-vars", fallbackIssue)] [] capConfig
        emptyLoopState s1Finding).seen 20 fallbackIssue = .skip := by
  have h := C8_fallback_match_protects_issue [("eslint|no-unused-vars", fallbackIssue)] []
    capConfig emptyLoopState s1Finding fallbackIssue (by decide) (by decide)
  exact ⟨h.1, h.2.2.1 _ 20 (fun a ha => ha)⟩

/-- Witness for C10: `noRunIssue` (fingerprint marker, no `lastSeenRun`)
is closed at run 5 with 5 consecutive misses. -/
theorem C10_witness : closeResolvedStep [] 5 noRunIssue = .close 9 5 := by
  have h := C10_missing_lastSeenRun_closes_immediately [] 5 noRunIssue
    { fingerprint := some "sha256:norun", lastSeenRun := none } "sha256:norun"
    rfl rfl rfl (by decide) (by simp) rfl
  exact h.mpr (by norm_num [FLAP_PROTECTION_RUNS])

/-- Auxiliary: a loop iteration never touches `closed`,
`skippedBelowThreshold` or `skippedDuplicate`. -/
theorem processOneFinding_stats_frame (toolRuleMap sublinterMap : List (String × ExistingIssue))
    (cfg : IssuesConfig) (st : LoopState) (finding : Finding) :
    (processOneFinding toolRuleMap sublinterMap cfg st finding).stats.closed =
      st.stats.closed ∧
    (processOneFinding toolRuleMap sublinterMap cfg st finding).stats.skippedBelowThreshold =
      st.stats.skippedBelowThreshold ∧
    (processOneFinding toolRuleMap sublinterMap cfg st finding).stats.skippedDuplicate =
      st.stats.skippedDuplicate := by
  unfold processOneFinding
  cases hm : mapGet st.fpMap finding.fingerprint with
  | some issue =>
    simp only [hm]
    by_cases ho : issue.state = "open" <;> simp [ho]
  | none =>
    simp only [hm]
    cases hf : fallbackLookup toolRuleMap sublinterMap finding with
    | some issue =>
      simp only [hf]
      by_cases ho : issue.state = "open" <;> simp [ho]
    | none =>
      simp only [hf]
      by_cases hc : st.stats.created ≥ cfg.max_new_per_run <;> simp [hc]

/-- Auxiliary: the loop never touches `skippedDuplicate`. -/
theorem processFindingsLoop_skippedDuplicate
    (toolRuleMap sublinterMap : List (String × ExistingIssue)) (cfg : IssuesConfig)
    (findings : List Finding) (st : LoopState) :
    (processFindingsLoop toolRuleMap sublinterMap cfg st findings).stats.skippedDuplicate =
      st.stats.skippedDuplicate := by
  induction findings generalizing st with
  | nil => rfl
  | cons f fs ih =>
    show (processFindingsLoop toolRuleMap sublinterMap cfg
      (processOneFinding toolRuleMap sublinterMap cfg st f) fs).stats.skippedDuplicate = _
    rw [ih]
    exact (processOneFinding_stats_frame toolRuleMap sublinterMap cfg st f).2.2

/-- Auxiliary: one-step unfolding of the flap-closure pass. -/
theorem closeResolvedIssuesStats_cons (i : ExistingIssue) (rest : List ExistingIssue)
    (seen : List String) (currentRun : Nat) (s : IssueStats) :
    closeResolvedIssuesStats (i :: rest) seen currentRun s =
      closeResolvedIssuesStats rest seen currentRun
        (match closeResolvedStep seen currentRun i with
         | .close _ _ => { s with closed := s.closed + 1 }
         | _ => s) := rfl

/-- Auxiliary: the flap-closure pass only adds to `closed`. -/
theorem closeResolvedIssuesStats_shape (existingIssues : List ExistingIssue)
    (seen : List String) (currentRun : Nat) :
    ∀ s, ∃ n, closeResolvedIssuesStats existingIssues seen currentRun s =
      { s with closed := s.closed + n } := by
  induction existingIssues with
  | nil => intro s; exact ⟨0, rfl⟩
  | cons i rest ih =>
    intro s
    rw [closeResolvedIssuesStats_cons]
    cases hstep : closeResolvedStep seen currentRun i with
    | close a b =>
      obtain ⟨n2, hn2⟩ := ih { s with closed := s.closed + 1 }
      refine ⟨n2 + 1, ?_⟩
      simp only [hn2]
      congr 1
      omega
    | comment a b => exact ih s
    | skip => exact ih s

/-- Auxiliary: one-step unfolding of the supersession pass. -/
theorem closeSupersededIssuesStats_cons (i : ExistingIssue) (rest : List ExistingIssue)
    (findings : List Finding) (seen : List String) (s : IssueStats) :
    closeSupersededIssuesStats (i :: rest) findings seen s =
      closeSupersededIssuesStats rest findings seen
        (if i.state == "open" && isSupersededByMergedFinding i findings seen
         then { s with closed := s.closed + 1 } else s) := rfl

/-- Auxiliary: the supersession pass only adds to `closed`. -/
theorem closeSupersededIssuesStats_shape (existingIssues : List ExistingIssue)
    (findings : List Finding) (seen : List String) :
    ∀ s, ∃ n, closeSupersededIssuesStats existingIssues findings seen s =
      { s with closed := s.closed + n } := by
  induction existingIssues with
  | nil => intro s; exact ⟨0, rfl⟩
  | cons i rest ih =>
    intro s
    rw [closeSupersededIssuesStats_cons]
    by_cases hc : (i.state == "open" && isSupersededByMergedFinding i findings seen) = true
    · rw [if_pos hc]
      obtain ⟨n2, hn2⟩ := ih { s with closed := s.closed + 1 }
      refine ⟨n2 + 1, ?_⟩
      simp only [hn2]
      congr 1
      omega
    · rw [if_neg hc]
      exact ih s

/-- Auxiliary: the duplicate-collapse pass only adds to `closed`. -/
theorem closeDuplicateIssuesStats_shape (existingIssues : List ExistingIssue) :
    ∀ s, ∃ n, closeDuplicateIssuesStats existingIssues s =
      { s with closed := s.closed + n } := by
  have hgen : ∀ (l : List Nat) (s : IssueStats),
      l.foldl (fun s _ => { s with closed := s.closed + 1 }) s =
        { s with closed := s.closed + l.length } := by
    intro l
    induction l with
    | nil => intro s; rfl
    | cons x xs ih =>
      intro s
      show xs.foldl _ { s with closed := s.closed + 1 } = _
      rw [ih]
      simp only [List.length_cons]
      congr 1
      omega
  intro s
  exact ⟨(closedDuplicates existingIssues).length, hgen _ s⟩

/-- Auxiliary: the three close passes combined only add to `closed`. -/
theorem closePasses_shape (existingIssues : List ExistingIssue) (findings : List Finding)
    (seen : List String) (currentRun : Nat) (s : IssueStats) :
    ∃ n, closeDuplicateIssuesStats existingIssues
      (closeSupersededIssuesStats existingIssues findings seen
        (closeResolvedIssuesStats existingIssues seen currentRun s)) =
      { s with closed := s.closed + n } := by
  obtain ⟨n1, h1⟩ := closeResolvedIssuesStats_shape existingIssues seen currentRun s
  obtain ⟨n2, h2⟩ := closeSupersededIssuesStats_shape existingIssues findings seen
    { s with closed := s.closed + n1 }
  obtain ⟨n3, h3⟩ := closeDuplicateIssuesStats_shape existingIssues
    { s with closed := s.closed + n1 + n2 }
  refine ⟨n1 + n2 + n3, ?_⟩
  rw [h1, h2]
  simp only at h3 ⊢
  rw [h3]
  congr 1
  omega

/-- C9: `processFindings` never increments `skippedDuplicate`: the returned
stats record has `skippedDuplicate = 0` for every input. -/
theorem C9_skippedDuplicate_always_zero (findings : List Finding)
    (existingIssues : List ExistingIssue)
    (fpMap toolRuleMap sublinterMap : List (String × ExistingIssue))
    (cfg : IssuesConfig) (runNumber : Nat) :
    (processFindingsPure findings existingIssues fpMap toolRuleMap sublinterMap
      cfg runNumber).skippedDuplicate = 0 := by
  unfold processFindingsPure
  by_cases he : cfg.enabled
  · simp only [he, Bool.not_true, Bool.false_eq_true, if_false]
    by_cases hc : cfg.close_resolved
    · simp only [hc, if_true]
      obtain ⟨n, hn⟩ := closePasses_shape existingIssues
        (List.filter (fun f =>
          meetsThresholds f.severity f.confidence cfg.severity_threshold
            cfg.confidence_threshold) (deduplicateFindings findings))
        (processFindingsLoop toolRuleMap sublinterMap cfg
          { fpMap := fpMap, seen := [],
            stats := { initialStats with
              skippedBelowThreshold := (deduplicateFindings findings).length -
                (List.filter (fun f =>
                  meetsThresholds f.severity f.confidence cfg.severity_threshold
                    cfg.confidence_threshold) (deduplicateFindings findings)).length },
            ops := [] }
          (List.filter (fun f =>
            meetsThresholds f.severity f.confidence cfg.severity_threshold
              cfg.confidence_threshold) (deduplicateFindings findings))).seen
        runNumber
        (processFindingsLoop toolRuleMap sublinterMap cfg
          { fpMap := fpMap, seen := [],
            stats := { initialStats with
              skippedBelowThreshold := (deduplicateFindings findings).length -
                (List.filter (fun f =>
                  meetsThresholds f.severity f.confidence cfg.severity_threshold
                    cfg.confidence_threshold) (deduplicateFindings findings)).length },
            ops := [] }
          (List.filter (fun f =>
            meetsThresholds f.severity f.confidence cfg.severity_threshold
              cfg.confidence_threshold) (deduplicateFindings findings))).stats
      rw [hn]
      show (processFindingsLoop _ _ _ _ _).stats.skippedDuplicate = 0
      rw [processFindingsLoop_skippedDuplicate]
      rfl
    · simp only [Bool.not_eq_true] at hc
      simp only [hc, Bool.false_eq_true, if_false]
      rw [processFindingsLoop_skippedDuplicate]
      rfl
  · simp only [he, Bool.not_false, if_true]
    rfl

/-- Auxiliary: the combined close passes do not change `created`. -/
theorem closePasses_created (existingIssues : List ExistingIssue) (findings : List Finding)
    (seen : List String) (currentRun : Nat) (s : IssueStats) :
    (closeDuplicateIssuesStats existingIssues
      (closeSupersededIssuesStats existingIssues findings seen
        (closeResolvedIssuesStats existingIssues seen currentRun s))).created = s.created := by
  obtain ⟨n, hn⟩ := closePasses_shape existingIssues findings seen currentRun s
  rw [hn]

/-- Auxiliary: the combined close passes do not change `updated`. -/
theorem closePasses_updated (existingIssues : List ExistingIssue) (findings : List Finding)
    (seen : List String) (currentRun : Nat) (s : IssueStats) :
    (closeDuplicateIssuesStats existingIssues
      (closeSupersededIssuesStats existingIssues findings seen
        (closeResolvedIssuesStats existingIssues seen currentRun s))).updated = s.updated := by
  obtain ⟨n, hn⟩ := closePasses_shape existingIssues findings seen currentRun s
  rw [hn]

/-- Auxiliary: one loop iteration keeps `created` at or below the cap. -/
theorem processOneFinding_created_le (toolRuleMap sublinterMap : List (String × ExistingIssue))
    (cfg : IssuesConfig) (st : LoopState) (finding : Finding)
    (h : st.stats.created ≤ cfg.max_new_per_run) :
    (processOneFinding toolRuleMap sublinterMap cfg st finding).stats.created ≤
      cfg.max_new_per_run := by
  unfold processOneFinding
  cases hm : mapGet st.fpMap finding.fingerprint with
  | some issue =>
    simp only [hm]
    by_cases ho : issue.state = "open" <;> simp [ho, h]
  | none =>
    simp only [hm]
    cases hf : fallbackLookup toolRuleMap sublinterMap finding with
    | some issue =>
      simp only [hf]
      by_cases ho : issue.state = "open" <;> simp [ho, h]
    | none =>
      simp only [hf]
      by_cases hcap : st.stats.created ≥ cfg.max_new_per_run
      · simp [hcap, h]
      · simp only [hcap, if_false]
        simp only [ge_iff_le, not_le] at hcap
        simpa using hcap

/-- Auxiliary: the loop keeps `created` at or below the cap. -/
theorem processFindingsLoop_created_le (toolRuleMap sublinterMap : List (String × ExistingIssue))
    (cfg : IssuesConfig) (findings : List Finding) (st : LoopState)
    (h : st.stats.created ≤ cfg.max_new_per_run) :
    (processFindingsLoop toolRuleMap sublinterMap cfg st findings).stats.created ≤
      cfg.max_new_per_run := by
  induction findings generalizing st with
  | nil => exact h
  | cons f fs ih =>
    exact ih (processOneFinding toolRuleMap sublinterMap cfg st f)
      (processOneFinding_created_le toolRuleMap sublinterMap cfg st f h)

set_option maxRecDepth 8000 in
/-- C5: the number of created issues never exceeds `max_new_per_run`;
a finding that is unmatched while the cap is already reached increments
`skippedMaxReached` instead of creating; scenario S5 (40 distinct
findings, cap 25) yields `created = 25` and `skippedMaxReached = 15`. -/
theorem C5_max_new_cap :
    (∀ (findings : List Finding) (existingIssues : List ExistingIssue)
      (fpMap toolRuleMap sublinterMap : List (String × ExistingIssue))
      (cfg : IssuesConfig) (runNumber : Nat),
      (processFindingsPure findings existingIssues fpMap toolRuleMap sublinterMap
        cfg runNumber).created ≤ cfg.max_new_per_run) ∧
    (∀ (toolRuleMap sublinterMap : List (String × ExistingIssue)) (cfg : IssuesConfig)
      (st : LoopState) (finding : Finding),
      mapGet st.fpMap finding.fingerprint = none →
      fallbackLookup toolRuleMap sublinterMap finding = none →
      st.stats.created ≥ cfg.max_new_per_run →
      (processOneFinding toolRuleMap sublinterMap cfg st finding).stats.created =
        st.stats.created ∧
      (processOneFinding toolRuleMap sublinterMap cfg st finding).stats.skippedMaxReached =
        st.stats.skippedMaxReached + 1) ∧
    ((processFindingsPure capFindings [] [] [] [] capConfig 1).created = 25 ∧
     (processFindingsPure capFindings [] [] [] [] capConfig 1).skippedMaxReached = 15) := by
  refine ⟨?_, ?_, by decide, by decide⟩
  · intro findings existingIssues fpMap toolRuleMap sublinterMap cfg runNumber
    unfold processFindingsPure
    by_cases he : cfg.enabled
    · simp only [he, Bool.not_true, Bool.false_eq_true, if_false]
      by_cases hc : cfg.close_resolved
      · simp only [hc, if_true]
        rw [closePasses_created]
        exact processFindingsLoop_created_le _ _ _ _ _ (Nat.zero_le _)
      · simp only [Bool.not_eq_true] at hc
        simp only [hc, Bool.false_eq_true, if_false]
        exact processFindingsLoop_created_le _ _ _ _ _ (Nat.zero_le _)
    · simp only [he, Bool.not_false, if_true]
      exact Nat.zero_le _
  · intro toolRuleMap sublinterMap cfg st finding hmiss hfb hcap
    unfold processOneFinding
    simp only [hmiss, hfb]
    simp [hcap]

/-- Witness for C5: the universal cap bound applied at scenario S5. -/
theorem C5_witness :
    (processFindingsPure capFindings [] [] [] [] capConfig 1).created ≤
      capConfig.max_new_per_run :=
  C5_max_new_cap.1 capFindings [] [] [] [] capConfig 1

/-- Auxiliary: the last-space index never exceeds the search bound. -/
theorem lastSpaceLE_le (cs : List Char) (fromIdx : Nat) :
    lastSpaceLE cs fromIdx ≤ (fromIdx : Int) := by
  unfold lastSpaceLE
  cases hidx : (cs.take (fromIdx + 1)).reverse.findIdx? (fun c => c = ' ') with
  | none => simp only [hidx]; omega
  | some j =>
    simp only [hidx]
    have hlen : (cs.take (fromIdx + 1)).length ≤ fromIdx + 1 :=
      List.length_take_le _ _
    omega

/-- Auxiliary: every truncation result fits in the length budget. -/
theorem truncateAtWordBoundary_length_le (text : String) :
    (truncateAtWordBoundary text 100).length ≤ 100 := by
  unfold truncateAtWordBoundary
  by_cases h : text.length ≤ 100
  · simp only [h, if_true]
  · simp only [h, if_false]
    have htr : (((100 : Nat) : Int) - 3).toNat = 97 := by decide
    have hls : lastSpaceLE text.data (((100 : Nat) : Int) - 3).toNat ≤ (97 : Int) := by
      rw [htr]
      exact lastSpaceLE_le text.data 97
    by_cases hc1 : lastSpaceLE text.data (((100 : Nat) : Int) - 3).toNat >
        ((100 : Nat) : Int) - 3 - 20
    · by_cases hc2 : lastSpaceLE text.data (((100 : Nat) : Int) - 3).toNat > 0
      · rw [decide_eq_true hc1, decide_eq_true hc2]
        simp only [Bool.and_self, if_true]
        rw [String.length_append]
        have h3 : (lastSpaceLE text.data (((100 : Nat) : Int) - 3).toNat).toNat ≤ 97 :=
          Int.toNat_le.mpr hls
        have h1 : (String.mk (text.data.take
            (lastSpaceLE text.data (((100 : Nat) : Int) - 3).toNat).toNat)).length ≤ 97 :=
          le_trans (List.length_take_le _ _) h3
        have h4 : ("..." : String).length = 3 := rfl
        omega
      · rw [decide_eq_false hc2, Bool.and_false]
        simp only [Bool.false_eq_true, if_false]
        rw [String.length_append]
        have h1 : (String.mk (text.data.take (((100 : Nat) : Int) - 3).toNat)).length ≤ 97 := by
          rw [htr]
          exact List.length_take_le _ _
        have h4 : ("..." : String).length = 3 := rfl
        omega
    · rw [decide_eq_false hc1, Bool.false_and]
      simp only [Bool.false_eq_true, if_false]
      rw [String.length_append]
      have h1 : (String.mk (text.data.take (((100 : Nat) : Int) - 3).toNat)).length ≤ 97 := by
        rw [htr]
        exact List.length_take_le _ _
      have h4 : ("..." : String).length = 3 := rfl
      omega

/-- C7: every generated issue title has length at most 100; the underlying
truncation returns texts of length at most 100 unchanged, truncates a
longer text at the last space at or before index 97 when that space lies
within 20 characters of the cut column (index above 77), and otherwise
cuts at index 97 — in both cases appending the three-character ellipsis. -/
theorem C7_title_truncation (finding : Finding) :
    (generateIssueTitle finding).length ≤ 100 ∧
    (∀ text : String, text.length ≤ 100 → truncateAtWordBoundary text 100 = text) ∧
    (∀ text : String, 100 < text.length → 77 < lastSpaceLE text.data 97 →
      truncateAtWordBoundary text 100 =
        String.mk (text.data.take (lastSpaceLE text.data 97).toNat) ++ "...") ∧
    (∀ text : String, 100 < text.length → lastSpaceLE text.data 97 ≤ 77 →
      truncateAtWordBoundary text 100 = String.mk (text.data.take 97) ++ "...") := by
  have htr : (((100 : Nat) : Int) - 3).toNat = 97 := by decide
  have h77 : ((100 : Nat) : Int) - 3 - 20 = 77 := by decide
  refine ⟨truncateAtWordBoundary_length_le _,
    fun text h => by simp [truncateAtWordBoundary, h], fun text h100 hsp => ?_,
    fun text h100 hsp => ?_⟩
  · unfold truncateAtWordBoundary
    simp only [not_le.mpr h100, if_false]
    rw [htr] at *
    rw [h77]
    have h2 : lastSpaceLE text.data 97 > (0 : Int) := by omega
    rw [decide_eq_true hsp, decide_eq_true h2]
    simp only [Bool.and_self, if_true]
  · unfold truncateAtWordBoundary
    simp only [not_le.mpr h100, if_false]
    rw [htr] at *
    rw [h77]
    have h1 : ¬ lastSpaceLE text.data 97 > (77 : Int) := not_lt.mpr hsp
    rw [decide_eq_false h1, Bool.false_and]
    simp only [Bool.false_eq_true, if_false]

/-- Witness for C7: the length bound at the scenario-S1 finding and the
identity branch at a short text. -/
theorem C7_witness :
    (generateIssueTitle s1Finding).length ≤ 100 ∧
    truncateAtWordBoundary "short title" 100 = "short title" :=
  ⟨(C7_title_truncation s1Finding).1,
   (C7_title_truncation s1Finding).2.1 "short title" (by decide)⟩

/-- Auxiliary: `dedupInsert` merges (keeping fingerprints) or appends. -/
theorem dedupInsert_fingerprints (acc : List Finding) (f : Finding) :
    (dedupInsert acc f).map (fun g => g.fingerprint) =
      if acc.any (fun g => g.fingerprint = f.fingerprint) then
        acc.map (fun g => g.fingerprint)
      else acc.map (fun g => g.fingerprint) ++ [f.fingerprint] := by
  unfold dedupInsert
  by_cases h : acc.any (fun g => g.fingerprint = f.fingerprint)
  · simp only [h, if_true, List.map_map]
    apply List.map_congr_left
    intro g _
    by_cases hg : g.fingerprint = f.fingerprint <;> simp [hg]
  · simp [h]

/-- Auxiliary: the deduplicated finding stream has pairwise-distinct
fingerprints (spec §3: at most one entry per fingerprint per run). -/
theorem deduplicateFindings_nodup (findings : List Finding) :
    ((deduplicateFindings findings).map (fun g => g.fingerprint)).Nodup := by
  have hgen : ∀ (fs : List Finding) (acc : List Finding),
      (acc.map (fun g => g.fingerprint)).Nodup →
      ((fs.foldl dedupInsert acc).map (fun g => g.fingerprint)).Nodup := by
    intro fs
    induction fs with
    | nil => intro acc h; exact h
    | cons f rest ih =>
      intro acc hacc
      apply ih
      rw [dedupInsert_fingerprints]
      by_cases h : acc.any (fun g => g.fingerprint = f.fingerprint)
      · simp only [h, if_true]
        exact hacc
      · simp only [h, Bool.false_eq_true, if_false]
        have hall : ∀ g ∈ acc, g.fingerprint ≠ f.fingerprint := by
          intro g hg heq
          exact h (List.any_eq_true.mpr ⟨g, hg, decide_eq_true heq⟩)
        have hnotmem : f.fingerprint ∉ acc.map (fun g => g.fingerprint) := by
          intro hmem
          obtain ⟨g, hg, hfp⟩ := List.mem_map.mp hmem
          exact hall g hg hfp
        simp [List.nodup_append, hacc, hnotmem]
  exact hgen findings [] (by simp)

/-- Auxiliary: loop-step effect on a primary fingerprint match. -/
theorem processOneFinding_primary (toolRuleMap sublinterMap : List (String × ExistingIssue))
    (cfg : IssuesConfig) (st : LoopState) (finding : Finding) (issue : ExistingIssue)
    (h : mapGet st.fpMap finding.fingerprint = some issue) :
    (processOneFinding toolRuleMap sublinterMap cfg st finding).fpMap = st.fpMap ∧
    (processOneFinding toolRuleMap sublinterMap cfg st finding).stats.created =
      st.stats.created ∧
    (processOneFinding toolRuleMap sublinterMap cfg st finding).stats.updated =
      st.stats.updated + (if issue.state = "open" then 1 else 0) := by
  unfold processOneFinding
  simp only [h]
  by_cases ho : issue.state = "open" <;> simp [ho]

/-- Auxiliary: loop-step effect on a fallback match. -/
theorem processOneFinding_fallback (toolRuleMap sublinterMap : List (String × ExistingIssue))
    (cfg : IssuesConfig) (st : LoopState) (finding : Finding) (issue : ExistingIssue)
    (h1 : mapGet st.fpMap finding.fingerprint = none)
    (h2 : fallbackLookup toolRuleMap sublinterMap finding = some issue) :
    (processOneFinding toolRuleMap sublinterMap cfg st finding).fpMap =
      mapSet st.fpMap finding.fingerprint issue ∧
    (processOneFinding toolRuleMap sublinterMap cfg st finding).stats.created =
      st.stats.created ∧
    (processOneFinding toolRuleMap sublinterMap cfg st finding).stats.updated =
      st.stats.updated + (if issue.state = "open" then 1 else 0) := by
  unfold processOneFinding
  simp only [h1, h2]
  by_cases ho : issue.state = "open" <;> simp [ho]

/-- Auxiliary: loop-step effect on an unmatched finding. -/
theorem processOneFinding_unmatched (toolRuleMap sublinterMap : List (String × ExistingIssue))
    (cfg : IssuesConfig) (st : LoopState) (finding : Finding)
    (h1 : mapGet st.fpMap finding.fingerprint = none)
    (h2 : fallbackLookup toolRuleMap sublinterMap finding = none) :
    (processOneFinding toolRuleMap sublinterMap cfg st finding).fpMap = st.fpMap ∧
    (processOneFinding toolRuleMap sublinterMap cfg st finding).stats.updated =
      st.stats.updated ∧
    (processOneFinding toolRuleMap sublinterMap cfg st finding).stats.created =
      (if st.stats.created ≥ cfg.max_new_per_run then st.stats.created
       else st.stats.created + 1) := by
  unfold processOneFinding
  simp only [h1, h2]
  by_cases hcap : st.stats.created ≥ cfg.max_new_per_run <;> simp [hcap]

/-- Auxiliary: `countP` over a cons whose head satisfies the predicate. -/
theorem countP_cons_true {α : Type} (p : α → Bool) (a : α) (l : List α) (h : p a = true) :
    List.countP p (a :: l) = List.countP p l + 1 := by
  rw [List.countP_cons, h]
  simp

/-- Auxiliary: `countP` over a cons whose head fails the predicate. -/
theorem countP_cons_false {α : Type} (p : α → Bool) (a : α) (l : List α) (h : p a = false) :
    List.countP p (a :: l) = List.countP p l := by
  rw [List.countP_cons, h]
  simp

/-- Auxiliary: characterisation of the loop counters when the fingerprint
stream is duplicate-free: `updated` counts open static matches, `created`
counts unmatched findings capped at `max_new_per_run`. -/
theorem processFindingsLoop_counts (toolRuleMap sublinterMap : List (String × ExistingIssue))
    (cfg : IssuesConfig) :
    ∀ (fs : List Finding) (st : LoopState) (fpMap0 : List (String × ExistingIssue)),
    (fs.map (fun f => f.fingerprint)).Nodup →
    (∀ g ∈ fs, mapGet st.fpMap g.fingerprint = mapGet fpMap0 g.fingerprint) →
    st.stats.created ≤ cfg.max_new_per_run →
    (processFindingsLoop toolRuleMap sublinterMap cfg st fs).stats.updated =
      st.stats.updated + fs.countP (isOpenMatch fpMap0 toolRuleMap sublinterMap) ∧
    (processFindingsLoop toolRuleMap sublinterMap cfg st fs).stats.created =
      min cfg.max_new_per_run
        (st.stats.created + fs.countP (isUnmatched fpMap0 toolRuleMap sublinterMap)) := by
  intro fs
  induction fs with
  | nil =>
    intro st fpMap0 _ _ hcap
    refine ⟨by simp [processFindingsLoop], ?_⟩
    simp only [processFindingsLoop, List.foldl_nil, List.countP_nil, Nat.add_zero]
    exact (Nat.min_eq_right hcap).symm
  | cons f rest ih =>
    intro st fpMap0 hnd hmap hcap
    have hf : mapGet st.fpMap f.fingerprint = mapGet fpMap0 f.fingerprint :=
      hmap f (List.mem_cons_self f rest)
    have hndrest : (rest.map (fun f => f.fingerprint)).Nodup := (List.nodup_cons.mp hnd).2
    have hfpnot : f.fingerprint ∉ rest.map (fun f => f.fingerprint) :=
      (List.nodup_cons.mp hnd).1
    have hloopstep : processFindingsLoop toolRuleMap sublinterMap cfg st (f :: rest) =
        processFindingsLoop toolRuleMap sublinterMap cfg
          (processOneFinding toolRuleMap sublinterMap cfg st f) rest := rfl
    rw [hloopstep]
    cases hm : mapGet st.fpMap f.fingerprint with
    | some issue =>
      obtain ⟨hfp, hcr, hup⟩ :=
        processOneFinding_primary toolRuleMap sublinterMap cfg st f issue hm
      have hstat : staticLookup fpMap0 toolRuleMap sublinterMap f = some issue := by
        unfold staticLookup
        rw [← hf, hm]
      have hopm : isOpenMatch fpMap0 toolRuleMap sublinterMap f = (issue.state == "open") := by
        unfold isOpenMatch
        rw [hstat]
      have hunm : isUnmatched fpMap0 toolRuleMap sublinterMap f = false := by
        unfold isUnmatched
        rw [hstat]
        rfl
      obtain ⟨hu, hc⟩ := ih (processOneFinding toolRuleMap sublinterMap cfg st f) fpMap0 hndrest
        (fun g hg => by rw [hfp]; exact hmap g (List.mem_cons_of_mem f hg))
        (by rw [hcr]; exact hcap)
      refine ⟨?_, ?_⟩
      · rw [hu, hup]
        by_cases ho : issue.state = "open"
        · have hob : isOpenMatch fpMap0 toolRuleMap sublinterMap f = true := by
            rw [hopm]
            simp [ho]
          rw [countP_cons_true _ _ _ hob, if_pos ho]
          omega
        · have hob : isOpenMatch fpMap0 toolRuleMap sublinterMap f = false := by
            rw [hopm]
            simp [ho]
          rw [countP_cons_false _ _ _ hob, if_neg ho]
          omega
      · rw [hc, hcr, countP_cons_false _ _ _ hunm]
    | none =>
      have hnone : mapGet fpMap0 f.fingerprint = none := by rw [← hf, hm]
      cases hfb : fallbackLookup toolRuleMap sublinterMap f with
      | some issue =>
        obtain ⟨hfp, hcr, hup⟩ :=
          processOneFinding_fallback toolRuleMap sublinterMap cfg st f issue hm hfb
        have hstat : staticLookup fpMap0 toolRuleMap sublinterMap f = some issue := by
          unfold staticLookup
          rw [hnone, hfb]
        have hopm : isOpenMatch fpMap0 toolRuleMap sublinterMap f = (issue.state == "open") := by
          unfold isOpenMatch
          rw [hstat]
        have hunm : isUnmatched fpMap0 toolRuleMap sublinterMap f = false := by
          unfold isUnmatched
          rw [hstat]
          rfl
        have hmaprest : ∀ g ∈ rest,
            mapGet (processOneFinding toolRuleMap sublinterMap cfg st f).fpMap g.fingerprint =
              mapGet fpMap0 g.fingerprint := by
          intro g hg
          have hne : g.fingerprint ≠ f.fingerprint := by
            intro heq
            exact hfpnot (heq ▸ List.mem_map_of_mem (fun f => f.fingerprint) hg)
          rw [hfp, mapGet_mapSet_ne st.fpMap f.fingerprint g.fingerprint issue hne]
          exact hmap g (List.mem_cons_of_mem f hg)
        obtain ⟨hu, hc⟩ := ih (processOneFinding toolRuleMap sublinterMap cfg st f) fpMap0
          hndrest hmaprest (by rw [hcr]; exact hcap)
        refine ⟨?_, ?_⟩
        · rw [hu, hup]
          by_cases ho : issue.state = "open"
          · have hob : isOpenMatch fpMap0 toolRuleMap sublinterMap f = true := by
              rw [hopm]
              simp [ho]
            rw [countP_cons_true _ _ _ hob, if_pos ho]
            omega
          · have hob : isOpenMatch fpMap0 toolRuleMap sublinterMap f = false := by
              rw [hopm]
              simp [ho]
            rw [countP_cons_false _ _ _ hob, if_neg ho]
            omega
        · rw [hc, hcr, countP_cons_false _ _ _ hunm]
      | none =>
        obtain ⟨hfp, hup, hcr⟩ :=
          processOneFinding_unmatched toolRuleMap sublinterMap cfg st f hm hfb
        have hstat : staticLookup fpMap0 toolRuleMap sublinterMap f = none := by
          unfold staticLookup
          rw [hnone, hfb]
        have hopm : isOpenMatch fpMap0 toolRuleMap sublinterMap f = false := by
          unfold isOpenMatch
          rw [hstat]
        have hunm : isUnmatched fpMap0 toolRuleMap sublinterMap f = true := by
          unfold isUnmatched
          rw [hstat]
          rfl
        have hcap2 : (processOneFinding toolRuleMap sublinterMap cfg st f).stats.created ≤
            cfg.max_new_per_run := by
          rw [hcr]
          by_cases hge : st.stats.created ≥ cfg.max_new_per_run
          · simp only [hge, if_true]
            exact hcap
          · simp only [hge, if_false]
            omega
        obtain ⟨hu, hc⟩ := ih (processOneFinding toolRuleMap sublinterMap cfg st f) fpMap0
          hndrest (fun g hg => by rw [hfp]; exact hmap g (List.mem_cons_of_mem f hg)) hcap2
        refine ⟨?_, ?_⟩
        · rw [hu, hup, countP_cons_false _ _ _ hopm]
        · rw [hc, hcr, countP_cons_true _ _ _ hunm]
          by_cases hge : st.stats.created ≥ cfg.max_new_per_run
          · have heq : st.stats.created = cfg.max_new_per_run := le_antisymm hcap hge
            rw [if_pos hge, heq]
            omega
          · rw [if_neg hge]
            omega

/-- Auxiliary: the loop counters from a fresh state. -/
theorem processFindingsLoop_counts_zero (toolRuleMap sublinterMap : List (String × ExistingIssue))
    (cfg : IssuesConfig) (fs : List Finding) (st : LoopState)
    (fpMap0 : List (String × ExistingIssue))
    (hnd : (fs.map (fun f => f.fingerprint)).Nodup)
    (h0u : st.stats.updated = 0) (h0c : st.stats.created = 0) (hm : st.fpMap = fpMap0) :
    (processFindingsLoop toolRuleMap sublinterMap cfg st fs).stats.updated =
      fs.countP (isOpenMatch fpMap0 toolRuleMap sublinterMap) ∧
    (processFindingsLoop toolRuleMap sublinterMap cfg st fs).stats.created =
      min cfg.max_new_per_run (fs.countP (isUnmatched fpMap0 toolRuleMap sublinterMap)) := by
  have h := processFindingsLoop_counts toolRuleMap sublinterMap cfg fs st fpMap0 hnd
    (fun g _ => by rw [hm]) (by rw [h0c]; exact Nat.zero_le _)
  rw [h0u, h0c] at h
  simpa using h

/-- Auxiliary: `created` and `updated` of a full enabled run in terms of
static match counts over the actionable stream. -/
theorem processFindingsPure_counts (findings : List Finding)
    (existingIssues : List ExistingIssue)
    (fpMap toolRuleMap sublinterMap : List (String × ExistingIssue))
    (cfg : IssuesConfig) (runNumber : Nat) (hen : cfg.enabled = true) :
    (processFindingsPure findings existingIssues fpMap toolRuleMap sublinterMap
        cfg runNumber).updated =
      (actionableOf findings cfg).countP (isOpenMatch fpMap toolRuleMap sublinterMap) ∧
    (processFindingsPure findings existingIssues fpMap toolRuleMap sublinterMap
        cfg runNumber).created =
      min cfg.max_new_per_run
        ((actionableOf findings cfg).countP (isUnmatched fpMap toolRuleMap sublinterMap)) := by
  have hnd : ((actionableOf findings cfg).map (fun f => f.fingerprint)).Nodup := by
    have hsub : List.Sublist (actionableOf findings cfg) (deduplicateFindings findings) :=
      List.filter_sublist _
    exact (hsub.map (fun f => f.fingerprint)).nodup (deduplicateFindings_nodup findings)
  unfold processFindingsPure
  simp only [hen, Bool.not_true, Bool.false_eq_true, if_false]
  by_cases hc : cfg.close_resolved
  · simp only [hc, if_true]
    rw [closePasses_updated, closePasses_created]
    exact processFindingsLoop_counts_zero toolRuleMap sublinterMap cfg _ _ fpMap hnd rfl rfl rfl
  · simp only [Bool.not_eq_true] at hc
    simp only [hc, Bool.false_eq_true, if_false]
    exact processFindingsLoop_counts_zero toolRuleMap sublinterMap cfg _ _ fpMap hnd rfl rfl rfl

/-- Auxiliary: tightening both thresholds only shrinks admission. -/
theorem meetsThresholds_mono (severity : Severity) (confidence : Confidence)
    (t1 t2 : SeverityThreshold) (c1 c2 : Confidence)
    (hs : SEVERITY_ORDER_T t1 ≤ SEVERITY_ORDER_T t2)
    (hc : CONFIDENCE_ORDER c1 ≤ CONFIDENCE_ORDER c2)
    (h : meetsThresholds severity confidence t2 c2 = true) :
    meetsThresholds severity confidence t1 c1 = true := by
  simp only [meetsThresholds, meetsSeverityThreshold, meetsConfidenceThreshold,
    Bool.and_eq_true, decide_eq_true_eq, ge_iff_le] at h ⊢
  omega

/-- C6: with all non-threshold configuration fields equal, raising the
severity and/or confidence thresholds can only decrease `created + updated`. -/
theorem C6_threshold_monotonicity (findings : List Finding)
    (existingIssues : List ExistingIssue)
    (fpMap toolRuleMap sublinterMap : List (String × ExistingIssue))
    (cfg1 cfg2 : IssuesConfig) (runNumber : Nat)
    (hen : cfg1.enabled = cfg2.enabled)
    (hmax : cfg1.max_new_per_run = cfg2.max_new_per_run)
    (hsev : SEVERITY_ORDER_T cfg1.severity_threshold ≤ SEVERITY_ORDER_T cfg2.severity_threshold)
    (hconf : CONFIDENCE_ORDER cfg1.confidence_threshold ≤
      CONFIDENCE_ORDER cfg2.confidence_threshold) :
    (processFindingsPure findings existingIssues fpMap toolRuleMap sublinterMap
        cfg2 runNumber).created +
      (processFindingsPure findings existingIssues fpMap toolRuleMap sublinterMap
        cfg2 runNumber).updated ≤
    (processFindingsPure findings existingIssues fpMap toolRuleMap sublinterMap
        cfg1 runNumber).created +
      (processFindingsPure findings existingIssues fpMap toolRuleMap sublinterMap
        cfg1 runNumber).updated := by
  by_cases he : cfg2.enabled = true
  · have he1 : cfg1.enabled = true := by rw [hen]; exact he
    obtain ⟨hu2, hc2⟩ := processFindingsPure_counts findings existingIssues fpMap toolRuleMap
      sublinterMap cfg2 runNumber he
    obtain ⟨hu1, hc1⟩ := processFindingsPure_counts findings existingIssues fpMap toolRuleMap
      sublinterMap cfg1 runNumber he1
    rw [hu2, hc2, hu1, hc1, hmax]
    have hfilter : actionableOf findings cfg2 =
        (actionableOf findings cfg1).filter (fun f =>
          meetsThresholds f.severity f.confidence cfg2.severity_threshold
            cfg2.confidence_threshold) := by
      unfold actionableOf
      rw [List.filter_filter]
      apply List.filter_congr
      intro f _
      by_cases h2 : meetsThresholds f.severity f.confidence cfg2.severity_threshold
          cfg2.confidence_threshold = true
      · rw [h2, meetsThresholds_mono f.severity f.confidence cfg1.severity_threshold
          cfg2.severity_threshold cfg1.confidence_threshold cfg2.confidence_threshold
          hsev hconf h2]
        rfl
      · simp only [Bool.not_eq_true] at h2
        rw [h2]
        simp
    have hsublist : List.Sublist (actionableOf findings cfg2) (actionableOf findings cfg1) := by
      rw [hfilter]
      exact List.filter_sublist _
    have hOp : (actionableOf findings cfg2).countP
        (isOpenMatch fpMap toolRuleMap sublinterMap) ≤
        (actionableOf findings cfg1).countP (isOpenMatch fpMap toolRuleMap sublinterMap) :=
      hsublist.countP_le _
    have hUn : (actionableOf findings cfg2).countP
        (isUnmatched fpMap toolRuleMap sublinterMap) ≤
        (actionableOf findings cfg1).countP (isUnmatched fpMap toolRuleMap sublinterMap) :=
      hsublist.countP_le _
    have hmin : min cfg2.max_new_per_run ((actionableOf findings cfg2).countP
        (isUnmatched fpMap toolRuleMap sublinterMap)) ≤
        min cfg2.max_new_per_run ((actionableOf findings cfg1).countP
          (isUnmatched fpMap toolRuleMap sublinterMap)) :=
      min_le_min (le_refl _) hUn
    omega
  · have he1 : ¬ cfg1.enabled = true := by rw [hen]; exact he
    simp only [Bool.not_eq_true] at he he1
    unfold processFindingsPure
    simp [he, he1]

/-- Witness for C6: tightening the thresholds from (info, low) to
(high, high) on scenario S5's forty findings does not increase
`created + updated`. -/
theorem C6_witness :
    (processFindingsPure capFindings [] [] [] []
        { capConfig with severity_threshold := .high, confidence_threshold := .high } 1).created +
      (processFindingsPure capFindings [] [] [] []
        { capConfig with severity_threshold := .high, confidence_threshold := .high } 1).updated ≤
    (processFindingsPure capFindings [] [] [] [] capConfig 1).created +
      (processFindingsPure capFindings [] [] [] [] capConfig 1).updated :=
  C6_threshold_monotonicity capFindings [] [] [] [] capConfig
    { capConfig with severity_threshold := .high, confidence_threshold := .high } 1
    rfl rfl (by decide) (by decide)

/-- Auxiliary: inserting under a key appends to that key's group. -/
theorem findGroup_insertGroup_self (groups : List (String × List ExistingIssue))
    (key : String) (issue : ExistingIssue) :
    findGroup (insertGroup groups key issue) key = findGroup groups key ++ [issue] := by
  induction groups with
  | nil => simp [insertGroup, findGroup]
  | cons p rest ih =>
    obtain ⟨k, g⟩ := p
    by_cases hk : k = key
    · simp [insertGroup, findGroup, hk]
    · simp only [insertGroup, hk, if_false]
      simpa [findGroup, List.find?_cons, hk] using ih

/-- Auxiliary: inserting under a key leaves other keys' groups unchanged. -/
theorem findGroup_insertGroup_ne (groups : List (String × List ExistingIssue))
    (key key2 : String) (issue : ExistingIssue) (hne : key2 ≠ key) :
    findGroup (insertGroup groups key issue) key2 = findGroup groups key2 := by
  induction groups with
  | nil => simp [insertGroup, findGroup, Ne.symm hne]
  | cons p rest ih =>
    obtain ⟨k, g⟩ := p
    by_cases hk : k = key
    · have hk2 : ¬ k = key2 := by rw [hk]; exact Ne.symm hne
      simp [insertGroup, findGroup, hk, hk2, List.find?_cons, Ne.symm hne]
    · simp only [insertGroup, hk, if_false]
      by_cases hk2 : k = key2
      · simp [findGroup, List.find?_cons, hk2]
      · simpa [findGroup, List.find?_cons, hk2] using ih

/-- Auxiliary: keys after an insert. -/
theorem keysOf_insertGroup (groups : List (String × List ExistingIssue))
    (key : String) (issue : ExistingIssue) :
    keysOf (insertGroup groups key issue) =
      if key ∈ keysOf groups then keysOf groups else keysOf groups ++ [key] := by
  induction groups with
  | nil => simp [insertGroup, keysOf]
  | cons p rest ih =>
    obtain ⟨k, g⟩ := p
    by_cases hk : k = key
    · simp [insertGroup, keysOf, hk]
    · have hne : ¬ key = k := fun h => hk h.symm
      simp only [insertGroup, hk, if_false, keysOf, List.map_cons]
      simp only [keysOf] at ih
      rw [ih]
      by_cases hmem : key ∈ rest.map (fun p => p.1) <;> simp [hmem, hne]

/-- Auxiliary: inserts keep the keys duplicate-free. -/
theorem keysOf_insertGroup_nodup (groups : List (String × List ExistingIssue))
    (key : String) (issue : ExistingIssue) (h : (keysOf groups).Nodup) :
    (keysOf (insertGroup groups key issue)).Nodup := by
  rw [keysOf_insertGroup]
  by_cases hmem : key ∈ keysOf groups
  · simpa [hmem] using h
  · simp [hmem, List.nodup_append, h]

/-- Auxiliary: a group map with duplicate-free keys is characterised by
`findGroup`. -/
theorem mem_groups_eq_findGroup (groups : List (String × List ExistingIssue))
    (hnd : (keysOf groups).Nodup) (key : String) (g : List ExistingIssue)
    (hmem : (key, g) ∈ groups) : findGroup groups key = g := by
  induction groups with
  | nil => simp at hmem
  | cons p rest ih =>
    obtain ⟨k, g2⟩ := p
    rcases List.mem_cons.mp hmem with heq | htail
    · injection heq with hk hg
      subst hk
      subst hg
      simp [findGroup, List.find?_cons]
    · have hk : ¬ k = key := by
        intro hk
        have : key ∈ keysOf rest := by
          subst hk
          exact List.mem_map_of_mem (fun p => p.1) htail
        simp only [keysOf, List.map_cons, List.nodup_cons] at hnd
        exact hnd.1 (hk ▸ this)
      have hrest : (keysOf rest).Nodup := by
        simp only [keysOf, List.map_cons, List.nodup_cons] at hnd
        exact hnd.2
      simpa [findGroup, List.find?_cons, hk] using ih hrest htail

/-- Auxiliary: one step of the grouping fold. -/
theorem issuesByTitle_step (groups : List (String × List ExistingIssue))
    (issue : ExistingIssue) (rest : List ExistingIssue) :
    (issue :: rest).foldl
      (fun gs i => if i.state = "open" then insertGroup gs (normalizeIssueTitle i.title) i
        else gs) groups =
    rest.foldl
      (fun gs i => if i.state = "open" then insertGroup gs (normalizeIssueTitle i.title) i
        else gs)
      (if issue.state = "open" then insertGroup groups (normalizeIssueTitle issue.title) issue
       else groups) := rfl

/-- Auxiliary: the grouping fold collects exactly the open issues with the
given normalized title, in order. -/
theorem findGroup_fold (issues : List ExistingIssue) :
    ∀ (groups : List (String × List ExistingIssue)) (key : String),
    findGroup (issues.foldl
      (fun gs i => if i.state = "open" then insertGroup gs (normalizeIssueTitle i.title) i
        else gs) groups) key =
      findGroup groups key ++ issues.filter (openWithKey key) := by
  induction issues with
  | nil => intro groups key; simp
  | cons issue rest ih =>
    intro groups key
    rw [issuesByTitle_step]
    by_cases hop : issue.state = "open"
    · simp only [hop, if_true]
      by_cases hk : normalizeIssueTitle issue.title = key
      · have hfil : openWithKey key issue = true := by
          simp [openWithKey, hop, hk]
        rw [ih, hk, findGroup_insertGroup_self]
        rw [List.filter_cons, hfil]
        simp
      · have hfil : openWithKey key issue = false := by
          simp [openWithKey, hk]
        rw [ih, findGroup_insertGroup_ne _ _ _ _ (fun h => hk h.symm)]
        rw [List.filter_cons, hfil]
        simp
    · have hfil : openWithKey key issue = false := by
        have : (issue.state == "open") = false := by simp [hop]
        simp [openWithKey, this]
      simp only [hop, if_false]
      rw [ih, List.filter_cons, hfil]
      simp

/-- Auxiliary: the group stored under a key is exactly the open-with-title
filter of the issues. -/
theorem findGroup_issuesByTitle (issues : List ExistingIssue) (key : String) :
    findGroup (issuesByTitle issues) key = issues.filter (openWithKey key) := by
  unfold issuesByTitle
  rw [findGroup_fold issues [] key]
  simp [findGroup]

/-- Auxiliary: the grouping map's keys are duplicate-free. -/
theorem issuesByTitle_keys_nodup (issues : List ExistingIssue) :
    (keysOf (issuesByTitle issues)).Nodup := by
  unfold issuesByTitle
  have hgen : ∀ (l : List ExistingIssue) (groups : List (String × List ExistingIssue)),
      (keysOf groups).Nodup →
      (keysOf (l.foldl
        (fun gs i => if i.state = "open" then insertGroup gs (normalizeIssueTitle i.title) i
          else gs) groups)).Nodup := by
    intro l
    induction l with
    | nil => intro groups h; exact h
    | cons issue rest ih =>
      intro groups h
      rw [issuesByTitle_step]
      by_cases hop : issue.state = "open"
      · simp only [hop, if_true]
        exact ih _ (keysOf_insertGroup_nodup _ _ _ h)
      · simp only [hop, if_false]
        exact ih _ h
  exact hgen issues [] (by simp [keysOf])

/-- Auxiliary: every entry of the grouping map is the corresponding filter. -/
theorem mem_issuesByTitle (issues : List ExistingIssue) (key : String)
    (g : List ExistingIssue) (hmem : (key, g) ∈ issuesByTitle issues) :
    g = issues.filter (openWithKey key) := by
  rw [← findGroup_issuesByTitle]
  exact (mem_groups_eq_findGroup _ (issuesByTitle_keys_nodup issues) key g hmem).symm

/-- Auxiliary: a key with a non-empty filter appears in the grouping map. -/
theorem issuesByTitle_mem_of_ne_nil (issues : List ExistingIssue) (key : String)
    (hne : issues.filter (openWithKey key) ≠ []) :
    (key, issues.filter (openWithKey key)) ∈ issuesByTitle issues := by
  have hfg : findGroup (issuesByTitle issues) key = issues.filter (openWithKey key) :=
    findGroup_issuesByTitle issues key
  cases hfind : (issuesByTitle issues).find? (fun p => p.1 = key) with
  | none =>
    exfalso
    apply hne
    rw [← hfg]
    simp [findGroup, hfind]
  | some p =>
    have hp1 : p.1 = key := by
      have := List.find?_some hfind
      simpa using this
    have hp2 : p.2 = issues.filter (openWithKey key) := by
      rw [← hfg]
      simp [findGroup, hfind]
    have hpmem := List.mem_of_find?_eq_some hfind
    have hpe : p = (key, issues.filter (openWithKey key)) := by
      obtain ⟨a, b⟩ := p
      simp only at hp1 hp2
      rw [hp1, hp2]
    rw [← hpe]
    exact hpmem

/-- Auxiliary: insertion keeps a permutation. -/
theorem insertByNumberDesc_perm (x : ExistingIssue) (l : List ExistingIssue) :
    (insertByNumberDesc x l).Perm (x :: l) := by
  induction l with
  | nil => exact List.Perm.refl _
  | cons y ys ih =>
    by_cases h : x.number ≤ y.number
    · simp only [insertByNumberDesc, h, if_true]
      exact ((ih.cons y).trans (List.Perm.swap x y ys))
    · simp only [insertByNumberDesc, h, if_false]
      exact List.Perm.refl _

/-- Auxiliary: the sort is a permutation of its input. -/
theorem sortByNumberDesc_perm (l : List ExistingIssue) :
    (sortByNumberDesc l).Perm l := by
  induction l with
  | nil => exact List.Perm.refl _
  | cons x xs ih =>
    have hstep : sortByNumberDesc (x :: xs) = insertByNumberDesc x (sortByNumberDesc xs) := rfl
    rw [hstep]
    exact (insertByNumberDesc_perm x (sortByNumberDesc xs)).trans (ih.cons x)

/-- Auxiliary: insertion preserves descending pairwise order. -/
theorem insertByNumberDesc_pairwise (x : ExistingIssue) (l : List ExistingIssue)
    (h : l.Pairwise (fun a b => b.number ≤ a.number)) :
    (insertByNumberDesc x l).Pairwise (fun a b => b.number ≤ a.number) := by
  induction l with
  | nil => simp [insertByNumberDesc]
  | cons y ys ih =>
    obtain ⟨hy, hys⟩ := List.pairwise_cons.mp h
    by_cases hle : x.number ≤ y.number
    · simp only [insertByNumberDesc, hle, if_true]
      rw [List.pairwise_cons]
      refine ⟨?_, ih hys⟩
      intro z hz
      have hz2 : z ∈ x :: ys := (insertByNumberDesc_perm x ys).mem_iff.mp hz
      rcases List.mem_cons.mp hz2 with rfl | hz3
      · exact hle
      · exact hy z hz3
    · simp only [insertByNumberDesc, hle, if_false]
      rw [List.pairwise_cons]
      refine ⟨?_, h⟩
      intro z hz
      rcases List.mem_cons.mp hz with rfl | hz2
      · omega
      · have := hy z hz2
        omega

/-- Auxiliary: the sort is pairwise descending by issue number. -/
theorem sortByNumberDesc_pairwise (l : List ExistingIssue) :
    (sortByNumberDesc l).Pairwise (fun a b => b.number ≤ a.number) := by
  induction l with
  | nil => simp [sortByNumberDesc]
  | cons x xs ih =>
    have hstep : sortByNumberDesc (x :: xs) = insertByNumberDesc x (sortByNumberDesc xs) := rfl
    rw [hstep]
    exact insertByNumberDesc_pairwise x _ ih

/-- Auxiliary: a non-empty group sorts to a maximal head. -/
theorem sortByNumberDesc_head_max (l : List ExistingIssue) (hne : l ≠ []) :
    ∃ h t, sortByNumberDesc l = h :: t ∧ h ∈ l ∧ (∀ y ∈ l, y.number ≤ h.number) ∧
      (h :: t).Perm l := by
  have hperm := sortByNumberDesc_perm l
  cases hs : sortByNumberDesc l with
  | nil =>
    exfalso
    rw [hs] at hperm
    exact hne (hperm.symm.eq_nil)
  | cons h t =>
    rw [hs] at hperm
    have hpw := sortByNumberDesc_pairwise l
    rw [hs, List.pairwise_cons] at hpw
    refine ⟨h, t, rfl, hperm.mem_iff.mp (List.mem_cons_self h t), ?_, hperm⟩
    intro y hy
    rcases List.mem_cons.mp (hperm.mem_iff.mpr hy) with rfl | hyt
    · exact le_refl _
    · exact hpw.1 y hyt

/-- Auxiliary: membership in the closed-duplicate number list. -/
theorem mem_closedDuplicates (issues : List ExistingIssue) (n : Nat) :
    n ∈ closedDuplicates issues ↔
      ∃ g ∈ issuesByTitle issues, ¬ g.2.length ≤ 1 ∧
        n ∈ ((sortByNumberDesc g.2).drop 1).map (fun i => i.number) := by
  unfold closedDuplicates
  have hgen : ∀ (gl : List (String × List ExistingIssue)) (acc : List Nat),
      (n ∈ gl.foldl
        (fun acc g => if g.2.length ≤ 1 then acc
          else acc ++ ((sortByNumberDesc g.2).drop 1).map (fun i => i.number)) acc ↔
      n ∈ acc ∨ ∃ g ∈ gl, ¬ g.2.length ≤ 1 ∧
        n ∈ ((sortByNumberDesc g.2).drop 1).map (fun i => i.number)) := by
    intro gl
    induction gl with
    | nil => intro acc; simp
    | cons g gl2 ih =>
      intro acc
      rw [List.foldl_cons]
      by_cases hlen : g.2.length ≤ 1
      · simp only [hlen, if_true]
        rw [ih]
        constructor
        · rintro (hacc | hrest)
          · exact Or.inl hacc
          · obtain ⟨g2, hg2, hx⟩ := hrest
            exact Or.inr ⟨g2, List.mem_cons_of_mem g hg2, hx⟩
        · rintro (hacc | ⟨g2, hg2, hx⟩)
          · exact Or.inl hacc
          · rcases List.mem_cons.mp hg2 with rfl | hg3
            · exact absurd hlen hx.1
            · exact Or.inr ⟨g2, hg3, hx⟩
      · simp only [hlen, if_false]
        rw [ih]
        constructor
        · rintro (hacc | hrest)
          · rcases List.mem_append.mp hacc with h1 | h2
            · exact Or.inl h1
            · exact Or.inr ⟨g, List.mem_cons_self g gl2, hlen, h2⟩
          · obtain ⟨g2, hg2, hx⟩ := hrest
            exact Or.inr ⟨g2, List.mem_cons_of_mem g hg2, hx⟩
        · rintro (hacc | ⟨g2, hg2, hx⟩)
          · exact Or.inl (List.mem_append.mpr (Or.inl hacc))
          · rcases List.mem_cons.mp hg2 with rfl | hg3
            · exact Or.inl (List.mem_append.mpr (Or.inr hx.2))
            · exact Or.inr ⟨g2, hg3, hx⟩
  rw [hgen]
  simp

/-- Auxiliary: a list holding two distinct elements has length at least two. -/
theorem two_le_length_of_mem_ne {α : Type} {a b : α} {l : List α} (hne : a ≠ b)
    (ha : a ∈ l) (hb : b ∈ l) : 2 ≤ l.length := by
  cases l with
  | nil => simp at ha
  | cons x xs =>
    cases xs with
    | nil =>
      have ha2 : a = x := by simpa using ha
      have hb2 : b = x := by simpa using hb
      exact absurd (ha2.trans hb2.symm) hne
    | cons y ys => simp [Nat.succ_le_succ]

/-- Auxiliary: membership in an open-with-title filter, unfolded. -/
theorem mem_filter_openWithKey (issues : List ExistingIssue) (k : String) (x : ExistingIssue) :
    x ∈ issues.filter (openWithKey k) ↔
      x ∈ issues ∧ x.state = "open" ∧ normalizeIssueTitle x.title = k := by
  rw [List.mem_filter]
  simp [openWithKey, and_assoc]

/-- Auxiliary: the open-with-title filter refines the open filter. -/
theorem filter_openWithKey_eq (issues : List ExistingIssue) (k : String) :
    issues.filter (openWithKey k) =
      (issues.filter (fun i => i.state == "open")).filter
        (fun i => normalizeIssueTitle i.title == k) := by
  rw [List.filter_filter]
  apply List.filter_congr
  intro x _
  simp [openWithKey, Bool.and_comm]

/-- Auxiliary: duplicate-free open numbers restrict to any title group. -/
theorem nodup_numbers_filter_openWithKey (issues : List ExistingIssue) (k : String)
    (hnd : ((issues.filter (fun i => i.state == "open")).map (fun i => i.number)).Nodup) :
    ((issues.filter (openWithKey k)).map (fun i => i.number)).Nodup := by
  rw [filter_openWithKey_eq]
  exact ((List.filter_sublist _).map _).nodup hnd

/-- Auxiliary: two open issues with the same number are the same issue. -/
theorem open_issue_number_inj (issues : List ExistingIssue)
    (hnd : ((issues.filter (fun i => i.state == "open")).map (fun i => i.number)).Nodup)
    (a b : ExistingIssue) (ha : a ∈ issues) (hao : a.state = "open")
    (hb : b ∈ issues) (hbo : b.state = "open") (heq : a.number = b.number) : a = b := by
  have ha2 : a ∈ issues.filter (fun i => i.state == "open") :=
    List.mem_filter.mpr ⟨ha, by simp [hao]⟩
  have hb2 : b ∈ issues.filter (fun i => i.state == "open") :=
    List.mem_filter.mpr ⟨hb, by simp [hbo]⟩
  exact List.inj_on_of_nodup_map hnd ha2 hb2 heq

/-- C2: duplicate collapse. Assuming the open issues carry pairwise-distinct
numbers, an open issue's number is closed by `closeDuplicateIssues` exactly
when another open issue shares its normalized title with a larger number
(so each group keeps precisely its highest-numbered member), and
consequently no two surviving open issues share a normalized title. -/
theorem C2_duplicate_collapse (issues : List ExistingIssue)
    (hnd : ((issues.filter (fun i => i.state == "open")).map (fun i => i.number)).Nodup) :
    (∀ i ∈ issues, i.state = "open" →
      (i.number ∈ closedDuplicates issues ↔
        ∃ j ∈ issues, j.state = "open" ∧
          normalizeIssueTitle j.title = normalizeIssueTitle i.title ∧ i.number < j.number)) ∧
    (∀ i ∈ issues, ∀ j ∈ issues, i.state = "open" → j.state = "open" →
      i.number ∉ closedDuplicates issues → j.number ∉ closedDuplicates issues →
      normalizeIssueTitle i.title = normalizeIssueTitle j.title → i = j) := by
  have hchar : ∀ i ∈ issues, i.state = "open" →
      (i.number ∈ closedDuplicates issues ↔
        ∃ j ∈ issues, j.state = "open" ∧
          normalizeIssueTitle j.title = normalizeIssueTitle i.title ∧ i.number < j.number) := by
    intro i hi hio
    constructor
    · intro hin
      obtain ⟨g, hg, hlen, hmem⟩ := (mem_closedDuplicates issues i.number).mp hin
      obtain ⟨k, g2⟩ := g
      simp only at hlen hmem
      have hgeq : g2 = issues.filter (openWithKey k) := mem_issuesByTitle issues k g2 hg
      have hne : g2 ≠ [] := by
        intro h
        rw [h] at hlen
        simp at hlen
      obtain ⟨h, t, hs, hhmem, hmax, hperm⟩ := sortByNumberDesc_head_max g2 hne
      rw [hs] at hmem
      have hdrop : (h :: t).drop 1 = t := rfl
      rw [hdrop] at hmem
      obtain ⟨x, hxt, hxnum⟩ := List.mem_map.mp hmem
      have hxg : x ∈ g2 := hperm.mem_iff.mp (List.mem_cons_of_mem h hxt)
      have hxI := (mem_filter_openWithKey issues k x).mp (hgeq ▸ hxg)
      have hxi : x = i :=
        open_issue_number_inj issues hnd x i hxI.1 hxI.2.1 hi hio hxnum
      have hhI := (mem_filter_openWithKey issues k h).mp (hgeq ▸ hhmem)
      refine ⟨h, hhI.1, hhI.2.1, ?_, ?_⟩
      · rw [hhI.2.2, ← hxI.2.2, hxi]
      · have hig2 : i ∈ g2 := hxi ▸ hxg
        have hle : i.number ≤ h.number := hmax i hig2
        have hnumne : i.number ≠ h.number := by
          intro heqn
          have hnodup_g2 : (g2.map (fun i => i.number)).Nodup := by
            rw [hgeq]
            exact nodup_numbers_filter_openWithKey issues k hnd
          have hnodup_ht : (((h :: t)).map (fun i => i.number)).Nodup :=
            ((hperm.map _).nodup_iff).mpr hnodup_g2
          simp only [List.map_cons, List.nodup_cons] at hnodup_ht
          apply hnodup_ht.1
          rw [← heqn, ← hxnum]
          exact List.mem_map_of_mem _ hxt
        omega
    · rintro ⟨j, hj, hjo, hjt, hjn⟩
      have hik : i ∈ issues.filter (openWithKey (normalizeIssueTitle i.title)) :=
        (mem_filter_openWithKey issues _ i).mpr ⟨hi, hio, rfl⟩
      have hjk : j ∈ issues.filter (openWithKey (normalizeIssueTitle i.title)) :=
        (mem_filter_openWithKey issues _ j).mpr ⟨hj, hjo, hjt⟩
      have hij : i ≠ j := by
        intro h
        rw [← h] at hjn
        omega
      have hlen2 : 2 ≤ (issues.filter (openWithKey (normalizeIssueTitle i.title))).length :=
        two_le_length_of_mem_ne hij hik hjk
      have hne : issues.filter (openWithKey (normalizeIssueTitle i.title)) ≠ [] := by
        intro h
        rw [h] at hlen2
        simp at hlen2
      have hmemgrp := issuesByTitle_mem_of_ne_nil issues (normalizeIssueTitle i.title) hne
      obtain ⟨h, t, hs, hhmem, hmax, hperm⟩ :=
        sortByNumberDesc_head_max (issues.filter (openWithKey (normalizeIssueTitle i.title))) hne
      apply (mem_closedDuplicates issues i.number).mpr
      refine ⟨(normalizeIssueTitle i.title,
        issues.filter (openWithKey (normalizeIssueTitle i.title))), hmemgrp, by simp; omega, ?_⟩
      simp only
      rw [hs]
      have hdrop : (h :: t).drop 1 = t := rfl
      rw [hdrop]
      have hiht : i ∈ h :: t := hperm.mem_iff.mpr hik
      have hih : i ≠ h := by
        intro heq
        have := hmax j hjk
        rw [← heq] at this
        omega
      rcases List.mem_cons.mp hiht with heq | hit
      · exact absurd heq hih
      · exact List.mem_map_of_mem _ hit
  refine ⟨hchar, ?_⟩
  intro i hi j hj hio hjo hni hnj htitle
  by_contra hij
  have hnum : i.number ≠ j.number := by
    intro heq
    exact hij (open_issue_number_inj issues hnd i j hi hio hj hjo heq)
  rcases Nat.lt_or_ge i.number j.number with hlt | hge
  · exact hni ((hchar i hi hio).mpr ⟨j, hj, hjo, htitle.symm, hlt⟩)
  · have hlt2 : j.number < i.number := by omega
    exact hnj ((hchar j hj hjo).mpr ⟨i, hi, hio, htitle, hlt2⟩)

/-- Witness for C2: in `dupIssues`, open issues 1 and 2 share the
normalized title "dup code", so issue 1 (the lower number) is closed. -/
theorem C2_witness : (1 : Nat) ∈ closedDuplicates dupIssues := by
  have h := (C2_duplicate_collapse dupIssues (by decide)).1
  have h1 := h dupIssue1 (by decide) (by decide)
  exact h1.mpr ⟨dupIssue2, by decide, by decide, by decide, by decide⟩
